import Mathlib

/-!
# OptParserEmitter: a shallow embedding and its properties

The development follows `llvm/utils/TableGen/OptParserEmitter.cpp`.

* Records are typed: a field that TableGen may leave unset (`?`) is an `Option`,
  a reference to another record holds what the emitter reads from that record.
* `raw_ostream &OS` is the text written so far, a `String`; `OS << x` appends.
* `assert` is active: a failed assertion ends the run (`Outcome.aborted`), and the
  text written before it is kept in the outcome.
* `unsigned` values are natural numbers reduced modulo `2 ^ 32`; a loop
  `for (unsigned i = 0, e = V.size(); i != e; ++i)` visits the first
  `V.size() % 2 ^ 32` elements of `V`.
* `int NumFlags` only counts the flags written; signed overflow is undefined
  behaviour, and the count is exact for every execution that has none.
-/

namespace OptParserEmitter

/-! ## Records -/

/-- A record listed in a `Flags` field; the emitter reads its name only. -/
structure FlagDef where
  recName : String

/-- The record behind an option's `Kind`; the emitter reads its `Name` field. -/
structure KindDef where
  Name : String

/-- The part of a record that `getOptionName` reads: the record's own name and
its `EnumName` field (`none` when unset). An `Alias` reference is held as this
part of its target, the only thing the emitter reads from it. -/
structure RecordHead where
  recName : String
  EnumName : Option String

/-- An `OptionGroup` record. `Group` is the parent group, when there is one. -/
inductive OptionGroup where
  | mk (recName : String) (Name : String) (EnumName : Option String)
      (Group : Option OptionGroup) (HelpText : Option String) (Flags : List FlagDef)

namespace OptionGroup

def recName : OptionGroup → String
  | mk n _ _ _ _ _ => n

def Name : OptionGroup → String
  | mk _ n _ _ _ _ => n

def EnumName : OptionGroup → Option String
  | mk _ _ e _ _ _ => e

def Group : OptionGroup → Option OptionGroup
  | mk _ _ _ g _ _ => g

def HelpText : OptionGroup → Option String
  | mk _ _ _ _ h _ => h

def Flags : OptionGroup → List FlagDef
  | mk _ _ _ _ _ f => f

def head (G : OptionGroup) : RecordHead :=
  ⟨G.recName, G.EnumName⟩

end OptionGroup

/-- An `Option` record, with the fields the emitter reads. -/
structure OptionRec where
  recName : String
  EnumName : Option String := none
  Name : String
  Prefixes : List String := []
  Kind : KindDef
  Group : Option OptionGroup := none
  Alias : Option RecordHead := none
  AliasArgs : List String := []
  Flags : List FlagDef := []
  NumArgs : Int := 0
  HelpText : Option String := none
  MetaVarName : Option String := none
  Values : Option String := none
  ValuesCode : Option String := none
  MarshallingKind : Option String := none
  KeyPath : Option String := none
  DefaultValue : Option String := none
  ShouldAlwaysEmit : Bool := false
  IsPositive : Bool := true
  Normalizer : Option String := none
  Denormalizer : Option String := none
  NormalizedValuesScope : Option String := none
  NormalizedValues : Option (List String) := none

def OptionRec.head (R : OptionRec) : RecordHead :=
  ⟨R.recName, R.EnumName⟩

/-! ## Library text operations -/

/-- Modelled from the spec: `unsigned` arithmetic (the C++ type, 32 bits wide);
the value of a natural number converted to `unsigned`. -/
def toUnsigned (n : Nat) : Nat :=
  n % 4294967296

/-- The elements visited by `for (unsigned i = 0, e = V.size(); i != e; ++i)`. -/
def loopRange {α : Type} (V : List α) : List α :=
  V.take (toUnsigned V.length)

/-- Modelled from the spec: the decimal text of an unsigned number, as
`Twine(unsigned).str()` and `OS << unsigned` produce it (llvm/ADT/Twine.h is not
part of the sources); the spec writes the identifiers `prefix_<n>`. -/
def utostr (X : Nat) : String :=
  Nat.repr X

/-- Modelled from the spec: `OS << bool` (llvm/Support/raw_ostream.h is not part
of the sources): `raw_ostream` has no overload for `bool`, the value is promoted
to `int` and written as `1` or `0`. -/
def writeBit (b : Bool) : String :=
  if b then "1" else "0"

/-- Modelled from the spec: `StringRef::upper()` (llvm/ADT/StringRef.h is not part
of the sources): the letters `a`..`z` become `A`..`Z`, all else is kept. -/
def upper (s : String) : String :=
  String.mk (s.data.map Char.toUpper)

/-- Three octal digits of a byte, as `raw_ostream::write_escaped` writes them
after a backslash. -/
def octalEscape (b : Nat) : List Char :=
  [Char.ofNat 92, Char.ofNat (48 + (b / 64) % 8), Char.ofNat (48 + (b / 8) % 8),
    Char.ofNat (48 + b % 8)]

/-- The escape of one character of the text. -/
def escapeChar (c : Char) : List Char :=
  if c = Char.ofNat 92 then [Char.ofNat 92, Char.ofNat 92]
  else if c = Char.ofNat 9 then [Char.ofNat 92, 't']
  else if c = Char.ofNat 10 then [Char.ofNat 92, 'n']
  else if c = Char.ofNat 34 then [Char.ofNat 92, Char.ofNat 34]
  else if 32 ≤ c.toNat ∧ c.toNat ≤ 126 then [c]
  else (String.utf8EncodeChar c).flatMap (fun b => octalEscape b.toNat)

/-- Modelled from the spec: `raw_ostream::write_escaped` (not part of the
sources), the text between the quotes of a "quoted" field: backslash, tab,
newline and double quote get a backslash escape, other bytes that are not
printable get a three digit octal escape. -/
def write_escaped (Str : String) : String :=
  String.mk (Str.data.flatMap escapeChar)

/-- The tokens of `cs` at the separator `sep`; `cur` holds the characters of the
token being read, last one first. -/
def splitChars (sep : Char) : List Char → List Char → List String
  | [], cur => [String.mk cur.reverse]
  | c :: cs, cur =>
    if c = sep then String.mk cur.reverse :: splitChars sep cs []
    else splitChars sep cs (c :: cur)

/-- Modelled from the spec: `StringRef::split(A, ',')` with its default arguments
`MaxSplit = -1`, `KeepEmpty = true` (llvm/ADT/StringRef.h is not part of the
sources): the comma-split tokens of `Values`, empty tokens kept. -/
def split (Values : String) (sep : Char) : List String :=
  splitChars sep Values.data []

/-! ## The prefix map -/

/-- The key type `PrefixKeyT`: a sequence of prefix strings. -/
abbrev PrefixKeyT := List String

/-- The type `PrefixesT = std::map<PrefixKeyT, std::string>`: the entries, in the
order in which the map iterates over them. -/
abbrev PrefixesT := List (PrefixKeyT × String)

/-- Lexicographic "less than" on sequences, the order of `std::map` keys. -/
def lexLt {α : Type} (lt : α → α → Bool) : List α → List α → Bool
  | [], [] => false
  | [], _ :: _ => true
  | _ :: _, [] => false
  | a :: as, b :: bs => lt a b || (!lt b a && lexLt lt as bs)

/-- Order of two prefix strings, character by character. For text in ASCII this is
the order of the `char` values that the key comparison of the source uses; for
other bytes that order depends on whether plain `char` is signed on the platform,
and this definition takes the unsigned reading. It decides where the map keeps an
entry, that is the order of the `PREFIX` lines, not whether two keys are the
same. -/
def strLt (a b : String) : Bool :=
  lexLt (fun x y => decide (x.toNat < y.toNat)) a.data b.data

/-- Order of two map keys. -/
def keyLt (a b : PrefixKeyT) : Bool :=
  lexLt strLt a b

/-- The value stored under `k`, if any (`std::map::find`). -/
def mapFind : PrefixesT → PrefixKeyT → Option String
  | [], _ => none
  | (k', v) :: m, k => if k' = k then some v else mapFind m k

/-- Put a new entry at its place in key order. -/
def mapPlace (k : PrefixKeyT) (v : String) : PrefixesT → PrefixesT
  | [] => [(k, v)]
  | (k', v') :: m =>
    if keyLt k k' then (k, v) :: (k', v') :: m else (k', v') :: mapPlace k v m

/-- Modelled from the spec: `std::map::insert`: the map afterwards and whether
the entry was inserted; an existing entry for the key is kept as it is. -/
def mapInsert (m : PrefixesT) (k : PrefixKeyT) (v : String) : PrefixesT × Bool :=
  match mapFind m k with
  | some _ => (m, false)
  | none => (mapPlace k v m, true)

/-- Modelled from the spec: the value read by `Prefixes[k]` (`std::map::operator[]`),
the empty string when the key has no entry. -/
def mapIndex (m : PrefixesT) (k : PrefixKeyT) : String :=
  (mapFind m k).getD ""

/-! ## Interning the prefixes (lines 96 to 109) -/

/-- One pass of the loop body: the map and `CurPrefix` after the option `R`. -/
def internStep (st : PrefixesT × Nat) (R : OptionRec) : PrefixesT × Nat :=
  let NewPrefix := toUnsigned (st.2 + 1)
  let ins := mapInsert st.1 R.Prefixes ("prefix_" ++ utostr NewPrefix)
  if ins.2 then (ins.1, NewPrefix) else (ins.1, st.2)

/-- The map `Prefixes` and the counter `CurPrefix` after the interning loop over
the (sorted) options. -/
def internPrefixes (Opts : List OptionRec) : PrefixesT × Nat :=
  (loopRange Opts).foldl internStep ([([], "prefix_0")], 0)

/-! ## Outcomes -/

/-- Why a run ends before `EmitOptParser` returns. -/
inductive Fatal where
  /-- A failed `assert`, with its message. -/
  | assertFailed (msg : String)
  /-- `Record::getValueAsString` on a field that is unset (a fatal error of the
  record library). -/
  | unsetField (field : String)
  /-- A call through the null `Emit` pointer of a `MarshallingKindInfo`. -/
  | nullEmit
  deriving DecidableEq

/-- The result of a piece of the emitter that can fail: it returned, or the run
ended; in both cases `OS` is the text written up to that point. -/
inductive Outcome where
  | done (OS : String)
  | aborted (OS : String) (why : Fatal)
  deriving DecidableEq

namespace Outcome

/-- The text written, whether the run went on or not. -/
def text : Outcome → String
  | done OS => OS
  | aborted OS _ => OS

/-- Whether the piece returned. -/
def completed : Outcome → Bool
  | done _ => true
  | aborted _ _ => false

/-- The statements that follow run only when the piece returned. -/
def andThen (o : Outcome) (next : String → Outcome) : Outcome :=
  match o with
  | done OS => next OS
  | aborted OS why => aborted OS why

end Outcome

/-! ## The static functions (lines 23 to 80) -/

def getOptionName (R : RecordHead) : String :=
  match R.EnumName with
  | none => R.recName
  | some EnumName => EnumName

def write_cstring (OS : String) (Str : String) : String :=
  OS ++ "\"" ++ write_escaped Str ++ "\""

def emitMarshallingInfoFlag (OS : String) (R : OptionRec) : Outcome :=
  .done (OS ++ writeBit R.IsPositive)

def emitMarshallingInfoString (OS : String) (R : OptionRec) : Outcome :=
  match R.Normalizer with
  | none => .aborted OS (.unsetField "Normalizer")
  | some Normalizer =>
    match R.Denormalizer with
    | none => .aborted (OS ++ Normalizer ++ ", ") (.unsetField "Denormalizer")
    | some Denormalizer => .done (OS ++ Normalizer ++ ", " ++ Denormalizer)

def emitScopedNormalizedValue (OS : String) (NormalizedValuesScope : String)
    (NormalizedValue : String) : String :=
  (if NormalizedValuesScope ≠ "" then OS ++ NormalizedValuesScope ++ "::" else OS)
    ++ NormalizedValue

/-- The message of the assertion of `emitValueTable` (lines 61 to 63). -/
def cardinalityMessage : String :=
  "The number of associated definitions doesn't match the number of " ++ "values"

/-- The message of the assertion of lines 285 to 288. -/
def prerequisiteMessage : String :=
  "Must provide at least a key-path and a default value for emitting " ++
    "marshalling information"

/-- The message of the assertion of lines 316 and 317. -/
def valuelessMessage : String :=
  "Cannot provide associated definitions for value-less options"

/-- One pass of the loop of `emitValueTable`, for `SplitValues[I]` and
`NormalizedValues[I]`. -/
def emitValueRow (MacroName NormalizedValuesScope : String) (OS : String)
    (row : String × String) : String :=
  emitScopedNormalizedValue (OS ++ MacroName ++ "(\"" ++ row.1 ++ "\",")
    NormalizedValuesScope row.2 ++ ")\n"

def emitValueTable (OS : String) (OptionID : String) (Values : String)
    (NormalizedValuesScope : String) (NormalizedValues : List String) : Outcome :=
  let SplitValues := split Values ','
  if SplitValues.length ≠ NormalizedValues.length then
    .aborted OS (.assertFailed cardinalityMessage)
  else
    let MacroName := "HANDLE_" ++ upper OptionID ++ "_VALUES"
    let OS := OS ++ "#ifdef " ++ MacroName ++ "\n"
    let OS := ((loopRange SplitValues).zip NormalizedValues).foldl
      (emitValueRow MacroName NormalizedValuesScope) OS
    .done (OS ++ "#endif\n")

/-- The struct `MarshallingKindInfo`; `Emit = none` is the null pointer. -/
structure MarshallingKindInfo where
  MacroName : String
  Emit : Option (String → OptionRec → Outcome)

/-! ## `EmitOptParser` (lines 86 to 350) -/

/-- The dump of one entry of the prefix map (lines 119 to 130). -/
def dumpPrefix (OS : String) (I : PrefixKeyT × String) : String :=
  let OS := OS ++ "PREFIX(" ++ I.2 ++ ", \x7b"
  let OS := I.1.foldl (fun OS PI => OS ++ "\"" ++ PI ++ "\" COMMA ") OS
  OS ++ "nullptr\x7d)\n"

/-- The prefix block (lines 113 to 133). -/
def dumpPrefixes (Prefixes : PrefixesT) (OS : String) : String :=
  let OS := OS ++ "/////////\n" ++ "// Prefixes\n\n" ++ "#ifdef PREFIX\n"
    ++ "#define COMMA ,\n"
  let OS := Prefixes.foldl dumpPrefix OS
  OS ++ "#undef COMMA\n" ++ "#endif // PREFIX\n\n"

/-- The optional help text of a row (lines 167 to 172 and 248 to 253). -/
def writeHelpText (OS : String) (HelpText : Option String) : String :=
  match HelpText with
  | some HelpText => write_cstring (OS ++ ",\n" ++ "       ") HelpText
  | none => OS ++ ", nullptr"

/-- The row of one group (lines 139 to 178). -/
def emitGroupRow (OS : String) (R : OptionGroup) : String :=
  let OS := OS ++ "OPTION(" ++ "nullptr"
  let OS := OS ++ ", \"" ++ R.Name ++ "\""
  let OS := OS ++ ", " ++ getOptionName R.head
  let OS := OS ++ ", Group"
  let OS := OS ++ ", "
  let OS := match R.Group with
    | some DI => OS ++ getOptionName DI.head
    | none => OS ++ "INVALID"
  let OS := OS ++ ", INVALID, nullptr, 0, 0"
  let OS := writeHelpText OS R.HelpText
  let OS := OS ++ ", nullptr"
  OS ++ ", nullptr)\n"

/-- The group rows (lines 135 to 180). -/
def emitGroups (Groups : List OptionGroup) (OS : String) : String :=
  let OS := OS ++ "/////////\n" ++ "// Groups\n\n" ++ "#ifdef OPTION\n"
  let OS := (loopRange Groups).foldl emitGroupRow OS
  OS ++ "\n"

/-- The alias arguments of an option row (lines 219 to 228). -/
def writeAliasArgs (OS : String) (AliasArgs : List String) : String :=
  if AliasArgs.length = 0 then OS ++ "nullptr"
  else
    let OS := OS ++ "\""
    let OS := AliasArgs.foldl (fun OS Arg => OS ++ Arg ++ "\\0") OS
    OS ++ "\""

/-- One pass of a flag loop (lines 235 and 238 to 239): the text and `NumFlags`
after the flag `I`. -/
def writeFlag (st : String × Nat) (I : FlagDef) : String × Nat :=
  (st.1 ++ (if st.2 ≠ 0 then " | " else "") ++ I.recName, st.2 + 1)

/-- The two flag loops (lines 232 to 240): the text and `NumFlags` after them. -/
def writeFlagLoops (OS : String) (R : OptionRec) : String × Nat :=
  let GroupFlags := R.Group.map OptionGroup.Flags
  let st := R.Flags.foldl writeFlag (OS, 0)
  match GroupFlags with
  | some GroupFlags => GroupFlags.foldl writeFlag st
  | none => st

/-- The flags of an option row (lines 232 to 242). -/
def writeFlags (OS : String) (R : OptionRec) : String :=
  let st := writeFlagLoops OS R
  if st.2 = 0 then st.1 ++ "0" else st.1

/-- The prefix identifier of an option row (lines 187 and 188). -/
def writePrefix (Prefixes : PrefixesT) (OS : String) (R : OptionRec) : String :=
  OS ++ mapIndex Prefixes R.Prefixes ++ ", "

/-- The lambda `WriteOptRecordFields` (lines 185 to 268); it captures `Prefixes`. -/
def WriteOptRecordFields (Prefixes : PrefixesT) (OS : String) (R : OptionRec) : String :=
  let OS := writePrefix Prefixes OS R
  let OS := write_cstring OS R.Name
  let OS := OS ++ ", " ++ getOptionName R.head
  let OS := OS ++ ", " ++ R.Kind.Name
  let OS := OS ++ ", "
  let OS := match R.Group with
    | some DI => OS ++ getOptionName DI.head
    | none => OS ++ "INVALID"
  let OS := OS ++ ", "
  let OS := match R.Alias with
    | some DI => OS ++ getOptionName DI
    | none => OS ++ "INVALID"
  let OS := OS ++ ", "
  let OS := writeAliasArgs OS R.AliasArgs
  let OS := OS ++ ", "
  let OS := writeFlags OS R
  let OS := OS ++ ", " ++ toString R.NumArgs
  let OS := writeHelpText OS R.HelpText
  let OS := OS ++ ", "
  let OS := match R.MetaVarName with
    | some MetaVarName => write_cstring OS MetaVarName
    | none => OS ++ "nullptr"
  let OS := OS ++ ", "
  match R.Values with
  | some Values => write_cstring OS Values
  | none => OS ++ "nullptr"

/-- The row of one option (lines 275 to 277). -/
def emitOptionRow (Prefixes : PrefixesT) (OS : String) (R : OptionRec) : String :=
  WriteOptRecordFields Prefixes (OS ++ "OPTION(") R ++ ")\n"

/-- The option rows (lines 182 to 183 and 271 to 281). -/
def emitOptions (Prefixes : PrefixesT) (Opts : List OptionRec) (OS : String) : String :=
  let OS := OS ++ "//////////\n" ++ "// Options\n\n"
  let OS := (loopRange Opts).foldl (emitOptionRow Prefixes) OS
  OS ++ "#endif // OPTION\n"

/-- The vector `OptsWithMarshalling` after the loop of lines 271 to 280. -/
def OptsWithMarshalling (Opts : List OptionRec) : List OptionRec :=
  (loopRange Opts).filter (fun R => R.MarshallingKind.isSome)

/-- The `StringSwitch` of lines 290 to 295. -/
def kindInfo (KindStr : String) : MarshallingKindInfo :=
  if KindStr = "flag" then ⟨"OPTION_WITH_MARSHALLING_FLAG", some emitMarshallingInfoFlag⟩
  else if KindStr = "string" then
    ⟨"OPTION_WITH_MARSHALLING_STRING", some emitMarshallingInfoString⟩
  else ⟨"", none⟩

/-- The value of `NormalizedValuesScope` after lines 296 to 298. -/
def scopeOf (R : OptionRec) : String :=
  match R.NormalizedValuesScope with
  | some Scope => Scope
  | none => ""

/-- The marshalling row of a queued option (lines 285 to 313). -/
def emitMarshallingRow (Prefixes : PrefixesT) (OS : String) (R : OptionRec) : Outcome :=
  match R.KeyPath, R.DefaultValue with
  | some KeyPath, some DefaultValue =>
    match R.MarshallingKind with
    | none => .aborted OS (.unsetField "MarshallingKind")
    | some KindStr =>
      let KindInfo := kindInfo KindStr
      let NormalizedValuesScope := scopeOf R
      let OS := OS ++ "#ifdef " ++ KindInfo.MacroName ++ "\n"
      let OS := OS ++ KindInfo.MacroName ++ "("
      let OS := WriteOptRecordFields Prefixes OS R
      let OS := OS ++ ", " ++ writeBit R.ShouldAlwaysEmit
      let OS := OS ++ ", " ++ KeyPath
      let OS := OS ++ ", "
      let OS := emitScopedNormalizedValue OS NormalizedValuesScope DefaultValue
      let OS := OS ++ ","
      match KindInfo.Emit with
      | none => .aborted OS .nullEmit
      | some Emit => (Emit OS R).andThen fun OS => .done (OS ++ ")\n" ++ "#endif\n")
  | _, _ =>
    .aborted OS (.assertFailed prerequisiteMessage)

/-- The value table of a queued option (lines 315 to 321). -/
def emitOptionValueTable (OS : String) (R : OptionRec) : Outcome :=
  match R.NormalizedValues with
  | none => .done OS
  | some NormalizedValues =>
    match R.Values with
    | none => .aborted OS (.assertFailed valuelessMessage)
    | some Values =>
      emitValueTable OS (getOptionName R.head) Values (scopeOf R) NormalizedValues

/-- One pass of the marshalling loop (lines 284 to 321). -/
def emitMarshalledOption (Prefixes : PrefixesT) (OS : String) (R : OptionRec) : Outcome :=
  (emitMarshallingRow Prefixes OS R).andThen fun OS => emitOptionValueTable OS R

/-- The passes of the marshalling loop over the queued options `Rs`; the first
pass that does not return ends the run. -/
def marshallingPasses (Prefixes : PrefixesT) : List OptionRec → String → Outcome
  | [], OS => .done OS
  | R :: Rs, OS =>
    (emitMarshalledOption Prefixes OS R).andThen (marshallingPasses Prefixes Rs)

/-- The marshalling loop (lines 283 to 322). -/
def emitMarshalling (Prefixes : PrefixesT) (Opts : List OptionRec) (OS : String) : Outcome :=
  marshallingPasses Prefixes (loopRange (OptsWithMarshalling Opts)) OS

/-- One registration statement (lines 337 to 344). -/
def emitAddValues (Name : String) (OS : String) (Prefix : String) : String :=
  let OS := OS ++ "ValuesWereAdded = Opt.addValues("
  let OS := write_cstring OS (Prefix ++ Name)
  let OS := OS ++ ", Values);\n"
  let OS := OS ++ "(void)ValuesWereAdded;\n"
  OS ++ "assert(ValuesWereAdded && \"Couldn't add values to " ++ "OptTable!\");\n"

/-- One pass of the value-init loop (lines 329 to 346). -/
def emitValueInit (OS : String) (R : OptionRec) : String :=
  match R.ValuesCode with
  | none => OS
  | some ValuesCode =>
    let OS := OS ++ "\x7b\n" ++ "bool ValuesWereAdded;\n" ++ ValuesCode ++ "\n"
    let OS := R.Prefixes.foldl (emitAddValues R.Name) OS
    OS ++ "\x7d\n"

/-- The value-init block (lines 324 to 349). -/
def emitValueInits (Opts : List OptionRec) (OS : String) : String :=
  let OS := OS ++ "\n" ++ "#ifdef OPTTABLE_ARG_INIT\n" ++ "//////////\n"
    ++ "// Option Values\n\n"
  let OS := (loopRange Opts).foldl emitValueInit OS
  OS ++ "\n" ++ "#endif // OPTTABLE_ARG_INIT\n"

/-- The function `EmitOptParser` from line 95 on. `Groups` and `Opts` are the two
vectors of records, `Opts` as `array_pod_sort` leaves it (the comparator
`CompareOptionRecords` is declared in OptEmitter.h), and `OS` is the stream as
`emitSourceFileHeader` leaves it. -/
def EmitOptParser (Groups : List OptionGroup) (Opts : List OptionRec) (OS : String) :
    Outcome :=
  let Prefixes := (internPrefixes Opts).1
  let OS := dumpPrefixes Prefixes OS
  let OS := emitGroups Groups OS
  let OS := emitOptions Prefixes Opts OS
  (emitMarshalling Prefixes Opts OS).andThen fun OS => .done (emitValueInits Opts OS)

/-! ## Definitions used to state the properties -/

/-- The number a list of decimal digit characters stands for. -/
def decodeDecimal (cs : List Char) : Nat :=
  cs.foldl (fun a c => a * 10 + (c.toNat - 48)) 0

/-- The distinct elements of a list, each at the place of its first occurrence. -/
def firstSeen {α : Type} [DecidableEq α] : List α → List α
  | [] => []
  | k :: ks => k :: (firstSeen ks).filter (fun x => decide (x ≠ k))

/-- The distinct non-empty prefix sequences of the options, in order of first
appearance. -/
def distinctNonEmpty (Opts : List OptionRec) : List PrefixKeyT :=
  (firstSeen (Opts.map OptionRec.Prefixes)).filter (fun k => decide (k ≠ []))

/-- The state of the interning loop agrees with the list `ks` of the sequences
registered so far, in the order of their registration: the map has exactly these
keys, the sequence at place `i` has the identifier `prefix_<i>`, and `CurPrefix`
is the last place. -/
def InternInv (ks : List PrefixKeyT) (st : PrefixesT × Nat) : Prop :=
  ks.Nodup ∧ st.2 + 1 = ks.length ∧ (st.1.map Prod.fst).Perm ks ∧
  (∀ (i : Nat) (h : i < ks.length), mapFind st.1 ks[i] = some ("prefix_" ++ utostr i)) ∧
  ∀ k, k ∉ ks → mapFind st.1 k = none

/-- The sequences registered by the interning loop, in identifier order: the
empty sequence, then the distinct non-empty ones in order of first appearance. -/
def internedKeys (Opts : List OptionRec) : List PrefixKeyT :=
  [] :: distinctNonEmpty Opts

/-- The first option of scenario B of the spec. -/
def scenarioB1 : OptionRec :=
  { recName := "a", Name := "a", Kind := ⟨"Flag"⟩, Prefixes := ["-", "--"] }

/-- The second option of scenario B, with the prefixes of the first. -/
def scenarioB2 : OptionRec :=
  { recName := "b", Name := "b", Kind := ⟨"Flag"⟩, Prefixes := ["-", "--"] }

/-- The third option of scenario B. -/
def scenarioB3 : OptionRec :=
  { recName := "c", Name := "c", Kind := ⟨"Flag"⟩, Prefixes := ["--"] }

/-- The names listed by an option: those of its own `Flags`, then, when it has a
group, those of the group's `Flags`. -/
def flagNames (R : OptionRec) : List String :=
  R.Flags.map FlagDef.recName ++
    (match R.Group with
     | some G => G.Flags.map FlagDef.recName
     | none => [])

/-- The flags field as the spec words it in its "flag union" property: the
deduplicated union of the listed names, or the literal `0` when there is none. -/
def dedupFlagsField (R : OptionRec) : String :=
  if firstSeen (flagNames R) = [] then "0" else " | ".intercalate (firstSeen (flagNames R))

/-- The text of a flags field that lists `names`. -/
def flagsText (names : List String) : String :=
  if names = [] then "0" else " | ".intercalate names

/-- A flag record. -/
def flagCC1 : FlagDef :=
  ⟨"CC1Option"⟩

/-- A group that lists the flag `CC1Option`. -/
def groupWithFlag : OptionGroup :=
  .mk "f_Group" "<f group>" none none none [flagCC1]

/-- An option that lists the flag that its group lists too. -/
def dupFlagOption : OptionRec :=
  { recName := "fa", Name := "fa", Kind := ⟨"Flag"⟩, Flags := [flagCC1],
    Group := some groupWithFlag }

/-- The text of one row of a value table: the macro name, the quoted token, a
comma, the normalized value behind its scope (when the scope is not the empty
string), and the closing bracket. -/
def valueRow (MacroName NormalizedValuesScope : String) (row : String × String) : String :=
  MacroName ++ "(\"" ++ row.1 ++ "\"," ++
    (if NormalizedValuesScope ≠ "" then NormalizedValuesScope ++ "::" else "") ++ row.2 ++ ")\n"

/-- The rows of a value table for the tokens `toks` and the normalized values `nvs`. -/
def valueRows (MacroName NormalizedValuesScope : String) (toks nvs : List String) :
    List String :=
  (toks.zip nvs).map (valueRow MacroName NormalizedValuesScope)

/-- The macro name of the value table of the option identifier `OptionID`. -/
def valuesMacroName (OptionID : String) : String :=
  "HANDLE_" ++ upper OptionID ++ "_VALUES"

/-- The normalized value as the spec words it: `Scope::Value` when
`NormalizedValuesScope` is set, unqualified otherwise. -/
def claimedScopedValue (NormalizedValuesScope : Option String) (Value : String) : String :=
  match NormalizedValuesScope with
  | some Scope => Scope ++ "::" ++ Value
  | none => Value

/-- The value table as the spec words it, for the tokens `toks` and the
normalized values `nvs` of the option `R`. -/
def claimedValueTable (R : OptionRec) (toks nvs : List String) : String :=
  "#ifdef " ++ valuesMacroName (getOptionName R.head) ++ "\n" ++
    String.join ((toks.zip nvs).map (fun row =>
      valuesMacroName (getOptionName R.head) ++ "(\"" ++ row.1 ++ "\"," ++
        claimedScopedValue R.NormalizedValuesScope row.2 ++ ")\n")) ++ "#endif\n"

/-- The option of scenario C of the spec, as a `string` kind option. -/
def scenarioC : OptionRec :=
  { recName := "opt", Name := "opt", Kind := ⟨"Joined"⟩, Prefixes := ["-"],
    MarshallingKind := some "string", KeyPath := some "Opts.Field",
    DefaultValue := some "X", Normalizer := some "normalize",
    Denormalizer := some "denormalize", Values := some "a,b,c",
    NormalizedValues := some ["X", "Y", "Z"], NormalizedValuesScope := some "Foo" }

/-- The option of scenario C with `NormalizedValuesScope` set to the empty string. -/
def emptyScopeOption : OptionRec :=
  { scenarioC with NormalizedValuesScope := some "" }

/-- A quoted string: the text that `write_cstring` appends. -/
def quoted (Str : String) : String :=
  "\"" ++ write_escaped Str ++ "\""

/-- The text of the help field, with what separates it from the field before. -/
def helpTextField (HelpText : Option String) : String :=
  match HelpText with
  | some HelpText => ",\n" ++ "       " ++ quoted HelpText
  | none => ", nullptr"

/-- The text of the alias arguments field. -/
def aliasArgsField (AliasArgs : List String) : String :=
  if AliasArgs.length = 0 then "nullptr"
  else "\"" ++ String.join (AliasArgs.map (fun Arg => Arg ++ "\\0")) ++ "\""

/-- The text of the identifier of an optional reference, `INVALID` when absent. -/
def refField (DI : Option RecordHead) : String :=
  match DI with
  | some DI => getOptionName DI
  | none => "INVALID"

/-- The text of an optional quoted field, `nullptr` when absent. -/
def optQuoted (Str : Option String) : String :=
  match Str with
  | some Str => quoted Str
  | none => "nullptr"

/-- The twelve fields of an option row, as `WriteOptRecordFields` appends them. -/
def optionFields (Prefixes : PrefixesT) (R : OptionRec) : String :=
  mapIndex Prefixes R.Prefixes ++ ", " ++ quoted R.Name ++ ", " ++ getOptionName R.head
    ++ ", " ++ R.Kind.Name ++ ", " ++ refField (R.Group.map OptionGroup.head)
    ++ ", " ++ refField R.Alias ++ ", " ++ aliasArgsField R.AliasArgs
    ++ ", " ++ flagsText (flagNames R) ++ ", " ++ toString R.NumArgs
    ++ helpTextField R.HelpText ++ ", " ++ optQuoted R.MetaVarName
    ++ ", " ++ optQuoted R.Values

/-- An option whose `MarshallingKind` is neither `flag` nor `string`. -/
def unknownKindOption : OptionRec :=
  { recName := "d", Name := "d", Kind := ⟨"Flag"⟩, MarshallingKind := some "bogus",
    KeyPath := some "Opts.D", DefaultValue := some "X" }

/-- A `flag` kind option without `KeyPath`. -/
def missingKeyPathOption : OptionRec :=
  { recName := "e", Name := "e", Kind := ⟨"Flag"⟩, MarshallingKind := some "flag",
    DefaultValue := some "false" }

/-- An option with `NormalizedValues`, without `Values` and without
`MarshallingKind`. -/
def unqueuedValuelessOption : OptionRec :=
  { recName := "v", Name := "v", Kind := ⟨"Joined"⟩, NormalizedValues := some ["X"] }

/-- An option with one token in `Values`, two normalized values and no
`MarshallingKind`. -/
def unqueuedMismatchOption : OptionRec :=
  { recName := "w", Name := "w", Kind := ⟨"Joined"⟩, Values := some "a",
    NormalizedValues := some ["X", "Y"] }

/-- The option `unqueuedValuelessOption` as a `flag` kind option. -/
def queuedValuelessOption : OptionRec :=
  { unqueuedValuelessOption with
    MarshallingKind := some "flag", KeyPath := some "Opts.V", DefaultValue := some "false" }

/-- A character that `write_escaped` writes as it is: printable, and neither the
double quote nor the backslash. -/
def isPlain (c : Char) : Bool :=
  decide (32 ≤ c.toNat ∧ c.toNat ≤ 126) && c != Char.ofNat 34 && c != Char.ofNat 92

/-- The option of scenario A of the spec: no prefixes, group, alias, flags, help
text, meta-variable name or values. -/
def scenarioA : OptionRec :=
  { recName := "anonymous_7", EnumName := some "help", Name := "help", Kind := ⟨"Flag"⟩,
    NumArgs := 0 }

/-- The text before the kind-specific payload of a marshalling row under the macro
`MacroName`: the guard, the macro name, the twelve fields of the option row,
`ShouldAlwaysEmit`, `KeyPath`, `DefaultValue` behind its scope (when the scope is
not the empty string), and a comma. -/
def marshallingRowStart (MacroName : String) (P : PrefixesT) (R : OptionRec)
    (KeyPath DefaultValue : String) : String :=
  "#ifdef " ++ MacroName ++ "\n" ++ MacroName ++ "(" ++ optionFields P R ++ ", "
    ++ writeBit R.ShouldAlwaysEmit ++ ", " ++ KeyPath ++ ", "
    ++ (match R.NormalizedValuesScope with
        | some Scope => if Scope ≠ "" then Scope ++ "::" else ""
        | none => "")
    ++ DefaultValue ++ ","

/-- The `string` kind marshalling row as the spec words it, with `DefaultValue`
written as `Scope::DefaultValue` whenever `NormalizedValuesScope` is set. -/
def claimedStringRow (P : PrefixesT) (R : OptionRec)
    (KeyPath DefaultValue Normalizer Denormalizer : String) : String :=
  "#ifdef OPTION_WITH_MARSHALLING_STRING\n" ++ "OPTION_WITH_MARSHALLING_STRING("
    ++ optionFields P R ++ ", " ++ writeBit R.ShouldAlwaysEmit ++ ", " ++ KeyPath ++ ", "
    ++ claimedScopedValue R.NormalizedValuesScope DefaultValue ++ ","
    ++ Normalizer ++ ", " ++ Denormalizer ++ ")\n" ++ "#endif\n"

/-- A boolean as the spec words it in scenario D: the literal `true` or `false`. -/
def claimedBoolLiteral (b : Bool) : String :=
  if b then "true" else "false"

/-- A `flag` kind option, with `IsPositive` true. -/
def positiveFlagOption : OptionRec :=
  { recName := "fx", Name := "fx", Kind := ⟨"Flag"⟩, Prefixes := ["-"],
    MarshallingKind := some "flag", KeyPath := some "Opts.X", DefaultValue := some "false",
    IsPositive := true }

/-- The text of the row of a group: the twelve fields of an `OPTION` row. -/
def groupRowText (G : OptionGroup) : String :=
  "OPTION(" ++ "nullptr" ++ ", \"" ++ G.Name ++ "\"" ++ ", " ++ getOptionName G.head
    ++ ", Group" ++ ", " ++ refField (G.Group.map OptionGroup.head)
    ++ ", INVALID, nullptr, 0, 0" ++ helpTextField G.HelpText ++ ", nullptr"
    ++ ", nullptr)\n"

/-- The text of the row of an option. -/
def optionRowText (P : PrefixesT) (R : OptionRec) : String :=
  "OPTION(" ++ optionFields P R ++ ")\n"

/-- The text of one registration statement of the value-init block, for the
prefix `Prefix` of an option called `Name`: the call of `addValues`, the cast to
`void` and the assertion. -/
def addValuesText (Name : String) (Prefix : String) : String :=
  "ValuesWereAdded = Opt.addValues(" ++ quoted (Prefix ++ Name) ++ ", Values);\n"
    ++ "(void)ValuesWereAdded;\n"
    ++ "assert(ValuesWereAdded && \"Couldn't add values to " ++ "OptTable!\");\n"

/-- The text of the `PREFIX` call of one entry of the prefix map. -/
def prefixCallText (I : PrefixKeyT × String) : String :=
  "PREFIX(" ++ I.2 ++ ", \x7b" ++ String.join (I.1.map (fun PI => "\"" ++ PI ++ "\" COMMA "))
    ++ "nullptr\x7d)\n"

/-- A group with help text and without a parent. -/
def parentGroup : OptionGroup :=
  .mk "Action_Group" "<action group>" none none (some "Actions") []

/-- A group below `parentGroup`. -/
def childGroup : OptionGroup :=
  .mk "anonymous_3" "<f group>" (some "f_Group") (some parentGroup) none [flagCC1]

/-- An option with `ValuesCode` and two prefixes, without `MarshallingKind`. -/
def valuesCodeOption : OptionRec :=
  { recName := "std_EQ", Name := "std=", Kind := ⟨"Joined"⟩, Prefixes := ["-", "--"],
    ValuesCode := some "const char *Values = \"c99,c11\";" }

/-- The outcome `o` of a piece that started on an empty stream, seen on a stream
that held `OS` before. -/
def Outcome.prepend (OS : String) (o : Outcome) : Outcome :=
  match o with
  | .done t => .done (OS ++ t)
  | .aborted t why => .aborted (OS ++ t) why

/-- The text that the pass of the marshalling loop for `R` appends when it
returns: the marshalling row, then the value table when there is one. -/
def marshalledText (P : PrefixesT) (R : OptionRec) : String :=
  (emitMarshallingRow P "" R).text ++ (emitOptionValueTable "" R).text

/-! ## Decimal text is injective -/

theorem decodeDecimal_snoc (cs : List Char) (c : Char) :
    decodeDecimal (cs ++ [c]) = decodeDecimal cs * 10 + (c.toNat - 48) := by
  simp [decodeDecimal, List.foldl_append]

theorem digitChar_value (d : Nat) (h : d < 10) : (Nat.digitChar d).toNat - 48 = d := by
  interval_cases d <;> rfl

theorem toDigitsCore_decode (fuel : Nat) : ∀ (n : Nat) (ds : List Char), n < fuel →
    ∃ pre, Nat.toDigitsCore 10 fuel n ds = pre ++ ds ∧ decodeDecimal pre = n := by
  induction fuel with
  | zero => intro n ds h; omega
  | succ fuel ih =>
    intro n ds h
    by_cases h0 : n / 10 = 0
    · refine ⟨[Nat.digitChar (n % 10)], ?_, ?_⟩
      · simp [Nat.toDigitsCore, h0]
      · have hn : n < 10 := by omega
        simp [decodeDecimal, Nat.mod_eq_of_lt hn, digitChar_value n hn]
    · obtain ⟨pre, hpre, hdec⟩ := ih (n / 10) (Nat.digitChar (n % 10) :: ds) (by omega)
      refine ⟨pre ++ [Nat.digitChar (n % 10)], ?_, ?_⟩
      · simp [Nat.toDigitsCore, h0, hpre]
      · rw [decodeDecimal_snoc, hdec, digitChar_value _ (Nat.mod_lt _ (by decide))]
        omega

theorem decodeDecimal_utostr (n : Nat) : decodeDecimal (utostr n).data = n := by
  obtain ⟨pre, hpre, hdec⟩ := toDigitsCore_decode (n + 1) n [] (by omega)
  have : (utostr n).data = pre := by
    simp [utostr, Nat.repr, Nat.toDigits, hpre, List.asString]
  rw [this, hdec]

theorem utostr_injective {a b : Nat} (h : utostr a = utostr b) : a = b := by
  have := congrArg (fun s => decodeDecimal s.data) h
  simpa [decodeDecimal_utostr] using this

theorem string_append_left_cancel {p a b : String} (h : p ++ a = p ++ b) : a = b := by
  have := congrArg String.data h
  simp only [String.data_append, List.append_cancel_left_eq] at this
  exact String.ext this

/-- The identifier `prefix_<n>`. -/
theorem prefixName_injective {a b : Nat}
    (h : "prefix_" ++ utostr a = "prefix_" ++ utostr b) : a = b :=
  utostr_injective (string_append_left_cancel h)

/-! ## Facts about the loops and the map -/

theorem toUnsigned_of_lt {n : Nat} (h : n < 4294967296) : toUnsigned n = n :=
  Nat.mod_eq_of_lt h

theorem loopRange_of_lt {α : Type} (V : List α) (h : V.length < 4294967296) :
    loopRange V = V := by
  simp [loopRange, toUnsigned_of_lt h]

theorem mapFind_mapPlace_self (k : PrefixKeyT) (v : String) :
    ∀ m : PrefixesT, mapFind m k = none → mapFind (mapPlace k v m) k = some v := by
  intro m
  induction m with
  | nil => intro _; simp [mapPlace, mapFind]
  | cons e m ih =>
    obtain ⟨k', v'⟩ := e
    intro h
    by_cases hk : k' = k
    · simp [mapFind, hk] at h
    · simp only [mapFind, hk, if_false] at h
      by_cases hlt : keyLt k k' = true
      · simp [mapPlace, hlt, mapFind]
      · simp [mapPlace, hlt, mapFind, hk, ih h]

theorem mapFind_mapPlace_other (k : PrefixKeyT) (v : String) (k1 : PrefixKeyT) (hne : k ≠ k1) :
    ∀ m : PrefixesT, mapFind (mapPlace k v m) k1 = mapFind m k1 := by
  intro m
  induction m with
  | nil => simp [mapPlace, mapFind, hne]
  | cons e m ih =>
    obtain ⟨k', v'⟩ := e
    by_cases hlt : keyLt k k' = true
    · simp [mapPlace, hlt, mapFind, hne]
    · by_cases hk : k' = k1
      · subst hk
        simp [mapPlace, hlt, mapFind]
      · simp [mapPlace, hlt, mapFind, hk, ih]

/-! ## The interning loop -/

theorem mem_firstSeen {α : Type} [DecidableEq α] (x : α) :
    ∀ l : List α, x ∈ firstSeen l ↔ x ∈ l := by
  intro l
  induction l with
  | nil => simp [firstSeen]
  | cons k ks ih =>
    by_cases h : x = k
    · simp [firstSeen, h]
    · simp [firstSeen, h, List.mem_filter, ih]

theorem nodup_firstSeen {α : Type} [DecidableEq α] :
    ∀ l : List α, (firstSeen l).Nodup := by
  intro l
  induction l with
  | nil => simp [firstSeen]
  | cons k ks ih =>
    simp only [firstSeen, List.nodup_cons, List.mem_filter]
    exact ⟨by simp, ih.filter _⟩

theorem firstSeen_concat {α : Type} [DecidableEq α] (x : α) :
    ∀ l : List α, firstSeen (l ++ [x]) = if x ∈ l then firstSeen l else firstSeen l ++ [x] := by
  intro l
  induction l with
  | nil => simp [firstSeen]
  | cons k ks ih =>
    have hstep : firstSeen (k :: ks ++ [x])
        = k :: (firstSeen (ks ++ [x])).filter (fun y => decide (y ≠ k)) := rfl
    rw [hstep, ih]
    simp only [firstSeen, List.mem_cons]
    by_cases hxk : x = k
    · subst hxk
      by_cases hx : x ∈ ks
      · simp [hx]
      · simp [hx, List.filter_append]
    · by_cases hx : x ∈ ks
      · simp [hx]
      · simp [hx, hxk, List.filter_append]

theorem mapPlace_keys (k : PrefixKeyT) (v : String) :
    ∀ m : PrefixesT, ((mapPlace k v m).map Prod.fst).Perm (m.map Prod.fst ++ [k]) := by
  intro m
  induction m with
  | nil => simp [mapPlace]
  | cons e m ih =>
    obtain ⟨k', v'⟩ := e
    by_cases hlt : keyLt k k' = true
    · simp only [mapPlace, hlt, if_true, List.map_cons]
      exact (List.perm_append_singleton k _).symm
    · simp only [mapPlace, hlt, List.map_cons, List.cons_append]
      exact (ih.cons k')

theorem internInv_init : InternInv [[]] ([([], "prefix_0")], 0) := by
  refine ⟨by simp, by simp, by simp, ?_, ?_⟩
  · intro i h
    have hi : i = 0 := by simpa using h
    subst hi
    simp [mapFind]; rfl
  · intro k h
    have h' : ¬ ([] : PrefixKeyT) = k := fun e => h (by simp [e])
    simp [mapFind, h']

theorem internInv_step (ks : List PrefixKeyT) (st : PrefixesT × Nat) (R : OptionRec)
    (hinv : InternInv ks st) (hlen : ks.length < 4294967296) :
    InternInv (if R.Prefixes ∈ ks then ks else ks ++ [R.Prefixes]) (internStep st R) := by
  obtain ⟨hnd, hcur, hperm, hfind, hnone⟩ := hinv
  have hnew : toUnsigned (st.2 + 1) = ks.length := by
    rw [hcur]; exact toUnsigned_of_lt hlen
  by_cases hk : R.Prefixes ∈ ks
  · obtain ⟨i, hi, hget⟩ := List.getElem_of_mem hk
    have hf := hfind i hi
    rw [hget] at hf
    simp only [hk, if_true, internStep, mapInsert, hf]
    exact ⟨hnd, hcur, hperm, hfind, hnone⟩
  · have hf := hnone _ hk
    simp only [hk, if_false, internStep, mapInsert, hf, if_true, hnew]
    refine ⟨?_, by simp, ?_, ?_, ?_⟩
    · exact List.Nodup.append hnd (by simp) (by simpa using hk)
    · exact (mapPlace_keys _ _ _).trans (hperm.append_right _)
    · intro i hi
      by_cases hlt : i < ks.length
      · rw [List.getElem_append_left hlt]
        have hne : R.Prefixes ≠ ks[i] := fun e => hk (e ▸ List.getElem_mem hlt)
        rw [mapFind_mapPlace_other _ _ _ hne]
        exact hfind i hlt
      · have hi' : i = ks.length := by
          simp only [List.length_append, List.length_singleton] at hi
          omega
        subst hi'
        simp only [List.getElem_concat_length]
        exact mapFind_mapPlace_self _ _ _ hf
    · intro k hkn
      simp only [List.mem_append, List.mem_singleton, not_or] at hkn
      have hne : R.Prefixes ≠ k := fun e => hkn.2 e.symm
      rw [mapFind_mapPlace_other _ _ _ hne]
      exact hnone k hkn.1

theorem internInv_foldl : ∀ (L : List OptionRec) (ks : List PrefixKeyT) (st : PrefixesT × Nat),
    InternInv ks st → ks.length + L.length ≤ 4294967296 →
    InternInv (ks ++ (firstSeen (L.map OptionRec.Prefixes)).filter (fun k => decide (k ∉ ks)))
      (L.foldl internStep st) := by
  intro L
  induction L with
  | nil => intro ks st hinv _; simpa [firstSeen] using hinv
  | cons R L ih =>
    intro ks st hinv hlen
    simp only [List.length_cons] at hlen
    have hstep := internInv_step ks st R hinv (by omega)
    simp only [List.foldl_cons, List.map_cons, firstSeen]
    by_cases hk : R.Prefixes ∈ ks
    · simp only [hk, if_true] at hstep
      have := ih ks _ hstep (by omega)
      have heq : List.filter (fun k => decide (k ∉ ks))
          (R.Prefixes :: List.filter (fun x => decide (x ≠ R.Prefixes))
            (firstSeen (List.map OptionRec.Prefixes L)))
          = List.filter (fun k => decide (k ∉ ks)) (firstSeen (List.map OptionRec.Prefixes L)) := by
        rw [List.filter_cons_of_neg (by simpa using hk), List.filter_filter]
        apply List.filter_congr
        intro x _
        by_cases hx : x ∈ ks
        · simp [hx]
        · have : x ≠ R.Prefixes := fun e => hx (e ▸ hk)
          simp [hx, this]
      rw [heq]; exact this
    · simp only [hk, if_false] at hstep
      have := ih (ks ++ [R.Prefixes]) _ hstep (by simp; omega)
      have heq : List.filter (fun k => decide (k ∉ ks))
          (R.Prefixes :: List.filter (fun x => decide (x ≠ R.Prefixes))
            (firstSeen (List.map OptionRec.Prefixes L)))
          = R.Prefixes :: List.filter (fun k => decide (k ∉ ks ++ [R.Prefixes]))
              (firstSeen (List.map OptionRec.Prefixes L)) := by
        rw [List.filter_cons_of_pos (by simpa using hk), List.filter_filter]
        congr 1
        apply List.filter_congr
        intro x _
        by_cases hx : x ∈ ks <;> by_cases hx2 : x = R.Prefixes <;> simp [hx, hx2]
      rw [heq]
      simpa [List.append_assoc] using this

theorem loopRange_length_lt {α : Type} (V : List α) : (loopRange V).length < 4294967296 := by
  have h : toUnsigned V.length < 4294967296 := Nat.mod_lt _ (by decide)
  simp only [loopRange, List.length_take]
  omega

theorem internedKeys_eq (L : List OptionRec) :
    [([] : PrefixKeyT)] ++ (firstSeen (L.map OptionRec.Prefixes)).filter
      (fun k => decide (k ∉ [([] : PrefixKeyT)])) = internedKeys L := by
  unfold internedKeys distinctNonEmpty
  simp only [List.singleton_append, List.cons.injEq, true_and]
  apply List.filter_congr
  intro x _
  simp

/-- The interning loop never wraps its counter: it visits fewer than `2 ^ 32` options. -/
theorem internInv_loopRange (Opts : List OptionRec) :
    InternInv (internedKeys (loopRange Opts)) (internPrefixes Opts) := by
  have hl := loopRange_length_lt Opts
  have h := internInv_foldl (loopRange Opts) [[]] _ internInv_init (by simp; omega)
  rw [internedKeys_eq] at h
  exact h

theorem internInv_internPrefixes (Opts : List OptionRec) (hlen : Opts.length < 4294967296) :
    InternInv (internedKeys Opts) (internPrefixes Opts) := by
  have h := internInv_loopRange Opts
  rwa [loopRange_of_lt Opts hlen] at h

theorem prefixes_mem_internedKeys (Opts : List OptionRec) (R : OptionRec) (hR : R ∈ Opts) :
    R.Prefixes ∈ internedKeys Opts := by
  unfold internedKeys distinctNonEmpty
  by_cases h : R.Prefixes = []
  · simp [h]
  · apply List.mem_cons_of_mem
    simp only [List.mem_filter, mem_firstSeen, List.mem_map]
    exact ⟨⟨R, hR, rfl⟩, by simpa using h⟩

theorem mapIndex_of_inv {ks : List PrefixKeyT} {st : PrefixesT × Nat} (hinv : InternInv ks st)
    (i : Nat) (h : i < ks.length) : mapIndex st.1 ks[i] = "prefix_" ++ utostr i := by
  simp [mapIndex, hinv.2.2.2.1 i h]

theorem string_append_right_cancel {p a b : String} (h : a ++ p = b ++ p) : a = b := by
  have := congrArg String.data h
  simp only [String.data_append, List.append_cancel_right_eq] at this
  exact String.ext this

theorem mapFind_some_mem : ∀ (m : PrefixesT) (k : PrefixKeyT) (v : String),
    mapFind m k = some v → k ∈ m.map Prod.fst := by
  intro m
  induction m with
  | nil => intro k v h; simp [mapFind] at h
  | cons e m ih =>
    obtain ⟨k', v'⟩ := e
    intro k v h
    by_cases hk : k' = k
    · simp [hk]
    · simp only [mapFind, hk, if_false] at h
      simp [ih k v h]

theorem mem_values_iff : ∀ (m : PrefixesT), (m.map Prod.fst).Nodup →
    ∀ v, v ∈ m.map Prod.snd ↔ ∃ k, mapFind m k = some v := by
  intro m
  induction m with
  | nil => intro _ v; simp [mapFind]
  | cons e m ih =>
    obtain ⟨k', v'⟩ := e
    intro hnd v
    simp only [List.map_cons, List.nodup_cons] at hnd
    simp only [List.map_cons, List.mem_cons, ih hnd.2 v]
    constructor
    · rintro (h | ⟨k, hk⟩)
      · exact ⟨k', by simp [mapFind, h]⟩
      · have hne : ¬ k' = k := fun e => hnd.1 (e ▸ mapFind_some_mem m k v hk)
        exact ⟨k, by simp [mapFind, hne, hk]⟩
    · rintro ⟨k, hk⟩
      by_cases hkk : k' = k
      · simp only [mapFind, hkk, if_true, Option.some.injEq] at hk
        exact Or.inl hk.symm
      · simp only [mapFind, hkk, if_false] at hk
        exact Or.inr ⟨k, hk⟩

/-! ## The claims -/

/-- C1 (prefix identity). For every ordered list of options that the `unsigned`
loops cover (fewer than `2 ^ 32` options) and every two options `A` and `B` in
it, the prefix identifier that `WriteOptRecordFields` writes as the first field
of the row of `A` is the one written for `B` if and only if `A.Prefixes` and
`B.Prefixes` are the same sequence of strings. -/
theorem prefix_identity (Opts : List OptionRec) (hlen : Opts.length < 4294967296)
    (A B : OptionRec) (hA : A ∈ Opts) (hB : B ∈ Opts) (OS : String) :
    writePrefix (internPrefixes Opts).1 OS A = writePrefix (internPrefixes Opts).1 OS B
      ↔ A.Prefixes = B.Prefixes := by
  constructor
  · intro h
    have hinv := internInv_internPrefixes Opts hlen
    obtain ⟨i, hi, hgi⟩ := List.getElem_of_mem (prefixes_mem_internedKeys Opts A hA)
    obtain ⟨j, hj, hgj⟩ := List.getElem_of_mem (prefixes_mem_internedKeys Opts B hB)
    have hAi := mapIndex_of_inv hinv i hi
    have hBj := mapIndex_of_inv hinv j hj
    rw [hgi] at hAi
    rw [hgj] at hBj
    unfold writePrefix at h
    have h1 := string_append_left_cancel (by simpa [String.append_assoc] using h :
      OS ++ (mapIndex (internPrefixes Opts).1 A.Prefixes ++ ", ")
        = OS ++ (mapIndex (internPrefixes Opts).1 B.Prefixes ++ ", "))
    have h2 := string_append_right_cancel h1
    rw [hAi, hBj] at h2
    have hij : i = j := prefixName_injective h2
    subst hij
    rw [← hgi, ← hgj]
  · intro h
    simp [writePrefix, h]

/-- C2 (gap-free numbering in order of first appearance). For every ordered list
of fewer than `2 ^ 32` options: the empty sequence has the identifier `prefix_0`;
the distinct non-empty sequence at place `k` (counted from 0) in order of first
appearance has the identifier `prefix_<k+1>`; the identifiers stored in the map
are exactly `prefix_0`, ..., `prefix_<n>` with `n` the number of distinct
non-empty sequences; and `CurPrefix` ends at `n`. -/
theorem first_appearance_numbering (Opts : List OptionRec) (hlen : Opts.length < 4294967296) :
    mapIndex (internPrefixes Opts).1 [] = "prefix_0" ∧
    (∀ (k : Nat) (h : k < (distinctNonEmpty Opts).length),
      mapIndex (internPrefixes Opts).1 (distinctNonEmpty Opts)[k]
        = "prefix_" ++ utostr (k + 1)) ∧
    (∀ id : String, id ∈ (internPrefixes Opts).1.map Prod.snd ↔
      ∃ i, i ≤ (distinctNonEmpty Opts).length ∧ id = "prefix_" ++ utostr i) ∧
    (internPrefixes Opts).2 = (distinctNonEmpty Opts).length := by
  have hinv := internInv_internPrefixes Opts hlen
  have hlenk : (internedKeys Opts).length = (distinctNonEmpty Opts).length + 1 := by
    simp [internedKeys]
  refine ⟨?_, ?_, ?_, ?_⟩
  · have := mapIndex_of_inv hinv 0 (by omega)
    simpa [internedKeys] using this
  · intro k hk
    have := mapIndex_of_inv hinv (k + 1) (by omega)
    simpa [internedKeys] using this
  · intro id
    obtain ⟨hnd, _, hperm, hfind, hnone⟩ := hinv
    rw [mem_values_iff _ (hperm.nodup_iff.mpr hnd)]
    constructor
    · rintro ⟨k, hk⟩
      by_cases hmem : k ∈ internedKeys Opts
      · obtain ⟨i, hi, hgi⟩ := List.getElem_of_mem hmem
        have := hfind i hi
        rw [hgi, hk] at this
        exact ⟨i, by omega, by simpa using this⟩
      · rw [hnone k hmem] at hk
        exact absurd hk (by simp)
    · rintro ⟨i, hi, rfl⟩
      exact ⟨(internedKeys Opts)[i], hfind i (by omega)⟩
  · have := hinv.2.1
    omega

/-- C3 (identifiers are stable under extension). For all ordered option lists `L`
and `M` with fewer than `2 ^ 32` options together, the empty sequence and every
prefix sequence of an option of `L` has the same identifier after interning
`L ++ M` as after interning `L` alone. -/
theorem identifiers_stable (L M : List OptionRec) (hlen : (L ++ M).length < 4294967296)
    (k : PrefixKeyT) (hk : k = [] ∨ ∃ R, R ∈ L ∧ R.Prefixes = k) :
    mapIndex (internPrefixes (L ++ M)).1 k = mapIndex (internPrefixes L).1 k := by
  have hL : L.length < 4294967296 := by
    simp only [List.length_append] at hlen; omega
  have hinvL := internInv_internPrefixes L hL
  have hmem : k ∈ internedKeys L := by
    rcases hk with rfl | ⟨R, hR, rfl⟩
    · simp [internedKeys]
    · exact prefixes_mem_internedKeys L R hR
  obtain ⟨i, hi, hgi⟩ := List.getElem_of_mem hmem
  have hstep : internPrefixes (L ++ M) = M.foldl internStep (internPrefixes L) := by
    simp [internPrefixes, loopRange_of_lt _ hlen, loopRange_of_lt _ hL, List.foldl_append]
  have hinvLM := internInv_foldl M (internedKeys L) (internPrefixes L) hinvL (by
    have : (internedKeys L).length ≤ L.length + 1 := by
      simp only [internedKeys, distinctNonEmpty, List.length_cons, Nat.add_le_add_iff_right]
      refine (List.length_filter_le _ _).trans ?_
      have h1 : (firstSeen (L.map OptionRec.Prefixes)).length ≤ L.length := by
        have : ∀ l : List PrefixKeyT, (firstSeen l).length ≤ l.length := by
          intro l
          induction l with
          | nil => simp [firstSeen]
          | cons a l ih =>
            simp only [firstSeen, List.length_cons, Nat.add_le_add_iff_right]
            exact (List.length_filter_le _ _).trans ih
        simpa using this (L.map OptionRec.Prefixes)
      exact h1
    simp only [List.length_append] at hlen
    omega)
  rw [hstep]
  have h1 := mapIndex_of_inv hinvLM i (by simp only [List.length_append]; omega)
  rw [List.getElem_append_left hi, hgi] at h1
  have h2 := mapIndex_of_inv hinvL i hi
  rw [hgi] at h2
  rw [h1, h2]

/-- C1 at scenario B of the spec: the first two options share `prefix_1`, the
third has `prefix_2`. -/
theorem prefix_identity_witness :
    (writePrefix (internPrefixes [scenarioB1, scenarioB2, scenarioB3]).1 "" scenarioB1
        = writePrefix (internPrefixes [scenarioB1, scenarioB2, scenarioB3]).1 "" scenarioB2
      ↔ scenarioB1.Prefixes = scenarioB2.Prefixes) ∧
    (writePrefix (internPrefixes [scenarioB1, scenarioB2, scenarioB3]).1 "" scenarioB1
        = writePrefix (internPrefixes [scenarioB1, scenarioB2, scenarioB3]).1 "" scenarioB3
      ↔ scenarioB1.Prefixes = scenarioB3.Prefixes) ∧
    writePrefix (internPrefixes [scenarioB1, scenarioB2, scenarioB3]).1 "" scenarioB1
      = "prefix_1, " ∧
    writePrefix (internPrefixes [scenarioB1, scenarioB2, scenarioB3]).1 "" scenarioB2
      = "prefix_1, " ∧
    writePrefix (internPrefixes [scenarioB1, scenarioB2, scenarioB3]).1 "" scenarioB3
      = "prefix_2, " :=
  ⟨prefix_identity [scenarioB1, scenarioB2, scenarioB3] (by decide) scenarioB1 scenarioB2
      (by simp) (by simp) "",
    prefix_identity [scenarioB1, scenarioB2, scenarioB3] (by decide) scenarioB1 scenarioB3
      (by simp) (by simp) "",
    by decide, by decide, by decide⟩

/-- C2 at scenario B of the spec: two distinct non-empty sequences, `prefix_1` and
`prefix_2` in order of first appearance, and the counter ends at 2. -/
theorem first_appearance_numbering_witness :
    distinctNonEmpty [scenarioB1, scenarioB2, scenarioB3] = [["-", "--"], ["--"]] ∧
    mapIndex (internPrefixes [scenarioB1, scenarioB2, scenarioB3]).1 [] = "prefix_0" ∧
    (internPrefixes [scenarioB1, scenarioB2, scenarioB3]).2
      = (distinctNonEmpty [scenarioB1, scenarioB2, scenarioB3]).length ∧
    internPrefixes [scenarioB1, scenarioB2, scenarioB3]
      = ([([], "prefix_0"), (["-", "--"], "prefix_1"), (["--"], "prefix_2")], 2) :=
  ⟨by decide,
    (first_appearance_numbering [scenarioB1, scenarioB2, scenarioB3] (by decide)).1,
    (first_appearance_numbering [scenarioB1, scenarioB2, scenarioB3] (by decide)).2.2.2,
    by decide⟩

/-- C3 at an extension whose new sequence comes first in the order of the map
keys: `["--"]` keeps `prefix_1` when `["-", "--"]` is interned after it. -/
theorem identifiers_stable_witness :
    mapIndex (internPrefixes ([scenarioB3] ++ [scenarioB1])).1 ["--"]
      = mapIndex (internPrefixes [scenarioB3]).1 ["--"] ∧
    internPrefixes ([scenarioB3] ++ [scenarioB1])
      = ([([], "prefix_0"), (["-", "--"], "prefix_2"), (["--"], "prefix_1")], 2) :=
  ⟨identifiers_stable [scenarioB3] [scenarioB1] (by decide) ["--"]
      (Or.inr ⟨scenarioB3, by simp, rfl⟩),
    by decide⟩

/-! ## Flags -/

theorem intercalate_go_append (p s : String) : ∀ (as : List String) (acc : String),
    String.intercalate.go (p ++ acc) s as = p ++ String.intercalate.go acc s as := by
  intro as
  induction as with
  | nil => intro acc; simp [String.intercalate.go]
  | cons a as ih =>
    intro acc
    simp only [String.intercalate.go]
    rw [← ih]
    simp [String.append_assoc]

theorem writeFlag_foldl_pos : ∀ (fs : List FlagDef) (acc : String) (n : Nat), n ≠ 0 →
    fs.foldl writeFlag (acc, n)
      = (String.intercalate.go acc " | " (fs.map FlagDef.recName), n + fs.length) := by
  intro fs
  induction fs with
  | nil => intro acc n _; simp [String.intercalate.go]
  | cons f fs ih =>
    intro acc n hn
    simp only [List.foldl_cons, writeFlag, hn, ne_eq, not_false_eq_true, if_true, List.map_cons,
      String.intercalate.go, List.length_cons]
    rw [ih _ _ (by omega)]
    congr 1
    omega

theorem writeFlag_foldl (OS : String) (fs : List FlagDef) :
    fs.foldl writeFlag (OS, 0)
      = (if fs.map FlagDef.recName = [] then OS
          else OS ++ " | ".intercalate (fs.map FlagDef.recName), fs.length) := by
  cases fs with
  | nil => simp
  | cons f fs =>
    simp only [List.foldl_cons, writeFlag, ne_eq, not_true_eq_false, if_false, String.append_empty,
      List.map_cons, String.intercalate, List.length_cons, reduceCtorEq]
    rw [writeFlag_foldl_pos _ _ _ (by omega), intercalate_go_append]
    congr 1
    omega

theorem writeFlagLoops_eq (OS : String) (R : OptionRec) :
    writeFlagLoops OS R
      = ((R.Flags ++ (match R.Group with
            | some G => G.Flags
            | none => [])).foldl writeFlag (OS, 0)) := by
  unfold writeFlagLoops
  cases R.Group with
  | none => simp
  | some G => simp [List.foldl_append]

theorem flagNames_eq_map (R : OptionRec) :
    flagNames R = (R.Flags ++ (match R.Group with
            | some G => G.Flags
            | none => [])).map FlagDef.recName := by
  unfold flagNames
  cases R.Group <;> simp

theorem writeFlags_eq (OS : String) (R : OptionRec) :
    writeFlags OS R = OS ++ flagsText (flagNames R) := by
  unfold writeFlags flagsText
  rw [writeFlagLoops_eq, writeFlag_foldl, ← flagNames_eq_map]
  have hlen : (R.Flags ++ (match R.Group with
            | some G => G.Flags
            | none => [])).length = (flagNames R).length := by
    rw [flagNames_eq_map, List.length_map]
  rw [hlen]
  by_cases h : flagNames R = []
  · simp [h]
  · have h2 : (flagNames R).length ≠ 0 := by simpa [List.length_eq_zero] using h
    simp only [h, if_false, h2]

/-- C4 (flags field of an option row). For every option the flags field written
by `WriteOptRecordFields` is the names of the option's own `Flags` in list order,
followed (only when the option has a `Group`) by the names of that group's
`Flags` in list order, joined by " | "; the literal `0` is written, and then it
is the whole field, exactly when `NumFlags` is 0 after the two loops, which is so
if and only if the own `Flags` are empty and the option has no group or its
group's `Flags` are empty. -/
theorem flags_field (OS : String) (R : OptionRec) :
    writeFlags OS R
      = OS ++ (if flagNames R = [] then "0" else " | ".intercalate (flagNames R)) ∧
    ((writeFlagLoops OS R).2 = 0 ↔
      R.Flags = [] ∧ (R.Group = none ∨ ∃ G, R.Group = some G ∧ G.Flags = [])) ∧
    ((writeFlagLoops OS R).2 = 0 ↔ flagNames R = []) := by
  refine ⟨writeFlags_eq OS R, ?_, ?_⟩
  · rw [writeFlagLoops_eq, writeFlag_foldl]
    cases hG : R.Group with
    | none => simp [List.length_eq_zero]
    | some G => simp [List.length_eq_zero]
  · rw [writeFlagLoops_eq, writeFlag_foldl, flagNames_eq_map]
    simp [List.length_eq_zero]

/-- C5, as stated, fails: an option that lists `CC1Option` and whose group lists
`CC1Option` gets the field `CC1Option | CC1Option`, where the name appears twice;
the deduplicated union would be `CC1Option`. -/
theorem flag_union_not_deduplicated :
    writeFlags "" dupFlagOption = "CC1Option | CC1Option" ∧
    dedupFlagsField dupFlagOption = "CC1Option" := by
  decide

/-- C5, amended (the flag union keeps every listing). For every option the flags
field lists the names of the own `Flags` followed by those of the group's
`Flags`; each name appears in it as often as the two lists together list it, so
every flag of the union appears and nothing is removed; an option with no group
and no flags gets the literal `0`. -/
theorem flag_union_keeps_listings (OS : String) (R : OptionRec) :
    writeFlags OS R = OS ++ flagsText (flagNames R) ∧
    (∀ f : String, (flagNames R).count f
      = (R.Flags.map FlagDef.recName).count f +
        (match R.Group with
         | some G => (G.Flags.map FlagDef.recName).count f
         | none => 0)) ∧
    (∀ f : String, f ∈ flagNames R ↔
      (f ∈ R.Flags.map FlagDef.recName ∨
        ∃ G, R.Group = some G ∧ f ∈ G.Flags.map FlagDef.recName)) ∧
    writeFlags OS { R with Flags := [], Group := none } = OS ++ "0" := by
  refine ⟨writeFlags_eq OS R, ?_, ?_, ?_⟩
  · intro f
    unfold flagNames
    cases R.Group <;> simp [List.count_append]
  · intro f
    unfold flagNames
    cases R.Group <;> simp
  · rw [writeFlags_eq]
    simp [flagNames, flagsText]

/-! ## Value tables -/

theorem string_join_cons (a : String) (l : List String) :
    String.join (a :: l) = a ++ String.join l := by
  have h : ∀ (l : List String) (acc : String),
      List.foldl (fun r s => r ++ s) acc l = acc ++ List.foldl (fun r s => r ++ s) "" l := by
    intro l
    induction l with
    | nil => intro acc; simp
    | cons b l ih =>
      intro acc
      simp only [List.foldl_cons]
      rw [ih (acc ++ b), ih ("" ++ b)]
      simp [String.append_assoc]
  simp only [String.join, List.foldl_cons]
  rw [h l ("" ++ a)]
  simp

/-- A loop that appends a piece of text in each pass appends the pieces in turn. -/
theorem foldl_append_text {α : Type} (step : String → α → String) (piece : α → String)
    (hstep : ∀ OS x, step OS x = OS ++ piece x) :
    ∀ (l : List α) (OS : String), l.foldl step OS = OS ++ String.join (l.map piece) := by
  intro l
  induction l with
  | nil => intro OS; simp [String.join]
  | cons a l ih =>
    intro OS
    simp only [List.foldl_cons, List.map_cons, string_join_cons]
    rw [ih, hstep]
    simp [String.append_assoc]

theorem emitValueRow_eq (MacroName Scope OS : String) (row : String × String) :
    emitValueRow MacroName Scope OS row = OS ++ valueRow MacroName Scope row := by
  unfold emitValueRow emitScopedNormalizedValue valueRow
  by_cases h : Scope = ""
  · simp [h, String.append_assoc]
  · simp [h, String.append_assoc]

theorem emitValueTable_eq (OS OptionID Values Scope : String) (NormalizedValues : List String) :
    emitValueTable OS OptionID Values Scope NormalizedValues =
      if (split Values ',').length ≠ NormalizedValues.length then
        .aborted OS (.assertFailed cardinalityMessage)
      else
        .done (OS ++ "#ifdef " ++ valuesMacroName OptionID ++ "\n" ++
          String.join (valueRows (valuesMacroName OptionID) Scope
            (loopRange (split Values ',')) NormalizedValues) ++ "#endif\n") := by
  unfold emitValueTable
  by_cases h : (split Values ',').length ≠ NormalizedValues.length
  · rw [if_pos h, if_pos h]
  · rw [if_neg h, if_neg h]
    simp only []
    rw [foldl_append_text _ _ (emitValueRow_eq _ _)]
    rfl

theorem value_table_cardinality_aux (OS OptionID Values Scope : String)
    (NormalizedValues : List String)
    (hcard : (split Values ',').length = NormalizedValues.length)
    (hlt : NormalizedValues.length < 4294967296) :
    emitValueTable OS OptionID Values Scope NormalizedValues
      = .done (OS ++ "#ifdef " ++ valuesMacroName OptionID ++ "\n" ++
          String.join (valueRows (valuesMacroName OptionID) Scope (split Values ',')
            NormalizedValues) ++ "#endif\n") := by
  rw [emitValueTable_eq, loopRange_of_lt _ (by omega)]
  simp [hcard]

/-- C6 (cardinality enforcement of the value table). For every `Values` string
and `NormalizedValues` list, `emitValueTable` returns if and only if the number of
comma-split tokens of `Values` is the length of `NormalizedValues`; otherwise its
assertion ends the run before anything is written; and when it returns (the
tokens being fewer than `2 ^ 32`, as many as a `SmallVector` holds) the text it
wrote is its `#ifdef` line, exactly as many rows as there are normalized values,
and its `#endif` line. -/
theorem value_table_cardinality (OS OptionID Values Scope : String)
    (NormalizedValues : List String) :
    ((emitValueTable OS OptionID Values Scope NormalizedValues).completed = true ↔
      (split Values ',').length = NormalizedValues.length) ∧
    ((split Values ',').length ≠ NormalizedValues.length →
      emitValueTable OS OptionID Values Scope NormalizedValues
        = .aborted OS (.assertFailed cardinalityMessage)) ∧
    ((split Values ',').length = NormalizedValues.length →
      NormalizedValues.length < 4294967296 →
      emitValueTable OS OptionID Values Scope NormalizedValues
        = .done (OS ++ "#ifdef " ++ valuesMacroName OptionID ++ "\n" ++
            String.join (valueRows (valuesMacroName OptionID) Scope (split Values ',')
              NormalizedValues) ++ "#endif\n") ∧
      (valueRows (valuesMacroName OptionID) Scope (split Values ',')
        NormalizedValues).length = NormalizedValues.length) := by
  rw [emitValueTable_eq]
  refine ⟨?_, ?_, ?_⟩
  · by_cases h : (split Values ',').length = NormalizedValues.length
    · simp [h, Outcome.completed]
    · simp [h, Outcome.completed]
  · intro h
    simp [h]
  · intro h hlt
    rw [loopRange_of_lt _ (by omega)]
    simp [h, valueRows]

/-- C6, at the input of the spec: `Values = "a,b,c"` ends the run with 2 or 4
normalized values and gives exactly 3 rows with 3. -/
theorem value_table_cardinality_witness :
    (emitValueTable "" "opt" "a,b,c" "" ["X", "Y"]).completed = false ∧
    (emitValueTable "" "opt" "a,b,c" "" ["X", "Y", "Z", "W"]).completed = false ∧
    (split "a,b,c" ',').length = 3 ∧
    (emitValueTable "" "opt" "a,b,c" "" ["X", "Y", "Z"]
      = .done ("" ++ "#ifdef " ++ valuesMacroName "opt" ++ "\n" ++
          String.join (valueRows (valuesMacroName "opt") "" (split "a,b,c" ',')
            ["X", "Y", "Z"]) ++ "#endif\n") ∧
     (valueRows (valuesMacroName "opt") "" (split "a,b,c" ',') ["X", "Y", "Z"]).length = 3) :=
  ⟨by decide, by decide, by decide,
    (value_table_cardinality "" "opt" "a,b,c" "" ["X", "Y", "Z"]).2.2 (by decide) (by decide)⟩

/-- C7, as stated, fails when `NormalizedValuesScope` is set to the empty string:
the rows are written without a scope (`HANDLE_OPT_VALUES("a",X)`), while
`Scope::Value` for the set scope would be `::X`. -/
theorem value_table_empty_scope :
    emitOptionValueTable "" emptyScopeOption
      = .done ("#ifdef HANDLE_OPT_VALUES\n" ++ "HANDLE_OPT_VALUES(\"a\",X)\n" ++
          "HANDLE_OPT_VALUES(\"b\",Y)\n" ++ "HANDLE_OPT_VALUES(\"c\",Z)\n" ++ "#endif\n") ∧
    claimedValueTable emptyScopeOption (split "a,b,c" ',') ["X", "Y", "Z"]
      = "#ifdef HANDLE_OPT_VALUES\n" ++ "HANDLE_OPT_VALUES(\"a\",::X)\n" ++
          "HANDLE_OPT_VALUES(\"b\",::Y)\n" ++ "HANDLE_OPT_VALUES(\"c\",::Z)\n" ++ "#endif\n" := by
  decide

/-- C7, amended (value-table pairing). For every queued option with
`NormalizedValues` present whose `Values` splits into as many tokens (fewer than
`2 ^ 32`) as there are normalized values, the pass of the marshalling loop is the
marshalling row followed by the value table: the `#ifdef` line of the macro
`HANDLE_<upper-cased option identifier>_VALUES`, one row per normalized value, and
the `#endif` line; row `i` pairs the quoted token `i` of `Values` with the
normalized value `i`, which is written as `Scope::Value` when
`NormalizedValuesScope` is set to a string that is not empty, and unqualified
when it is unset or empty. -/
theorem value_table_pairing (P : PrefixesT) (OS : String) (R : OptionRec)
    (Values : String) (nvs : List String)
    (hnv : R.NormalizedValues = some nvs) (hv : R.Values = some Values)
    (hcard : (split Values ',').length = nvs.length) (hlt : nvs.length < 4294967296) :
    emitMarshalledOption P OS R
      = (emitMarshallingRow P OS R).andThen (fun OS1 =>
          .done (OS1 ++ "#ifdef " ++ ("HANDLE_" ++ upper (getOptionName R.head) ++ "_VALUES")
            ++ "\n" ++ String.join (valueRows (valuesMacroName (getOptionName R.head))
              (scopeOf R) (split Values ',') nvs) ++ "#endif\n")) ∧
    (valueRows (valuesMacroName (getOptionName R.head)) (scopeOf R) (split Values ',')
      nvs).length = nvs.length ∧
    ∀ (i : Nat) (h1 : i < (valueRows (valuesMacroName (getOptionName R.head)) (scopeOf R)
        (split Values ',') nvs).length) (h2 : i < (split Values ',').length)
        (h3 : i < nvs.length),
      (valueRows (valuesMacroName (getOptionName R.head)) (scopeOf R) (split Values ',')
        nvs)[i]
      = "HANDLE_" ++ upper (getOptionName R.head) ++ "_VALUES" ++ "(\"" ++
          (split Values ',')[i] ++ "\"," ++
          (match R.NormalizedValuesScope with
           | some Scope => if Scope ≠ "" then Scope ++ "::" else ""
           | none => "") ++ nvs[i] ++ ")\n" := by
  refine ⟨?_, ?_, ?_⟩
  · unfold emitMarshalledOption
    congr 1
    funext OS1
    simp only [emitOptionValueTable, hnv, hv]
    rw [(value_table_cardinality_aux OS1 (getOptionName R.head) Values (scopeOf R) nvs
      hcard hlt)]
    rfl
  · simp [valueRows, hcard]
  · intro i h1 h2 h3
    have hs : (if scopeOf R ≠ "" then scopeOf R ++ "::" else "")
        = (match R.NormalizedValuesScope with
           | some Scope => if Scope ≠ "" then Scope ++ "::" else ""
           | none => "") := by
      unfold scopeOf
      cases R.NormalizedValuesScope <;> simp
    simp only [valueRows, List.getElem_map, List.getElem_zip, valueRow, valuesMacroName, hs]

set_option maxRecDepth 100000 in
/-- C7, amended, at scenario C of the spec: after the marshalling row come the three
rows `("a",Foo::X)`, `("b",Foo::Y)`, `("c",Foo::Z)`, in that order. -/
theorem value_table_pairing_witness :
    (split "a,b,c" ',').length = 3 ∧
    emitMarshalledOption [([], "prefix_0"), (["-"], "prefix_1")] "" scenarioC
      = (emitMarshallingRow [([], "prefix_0"), (["-"], "prefix_1")] "" scenarioC).andThen
          (fun OS1 => .done (OS1 ++ "#ifdef " ++
            ("HANDLE_" ++ upper (getOptionName scenarioC.head) ++ "_VALUES") ++ "\n" ++
            String.join (valueRows (valuesMacroName (getOptionName scenarioC.head))
              (scopeOf scenarioC) (split "a,b,c" ',') ["X", "Y", "Z"]) ++ "#endif\n")) ∧
    emitMarshalledOption [([], "prefix_0"), (["-"], "prefix_1")] "" scenarioC
      = .done ("#ifdef OPTION_WITH_MARSHALLING_STRING\n" ++
          "OPTION_WITH_MARSHALLING_STRING(prefix_1, \"opt\", opt, Joined, INVALID, INVALID, "
          ++ "nullptr, 0, 0, nullptr, nullptr, \"a,b,c\", 0, Opts.Field, Foo::X,"
          ++ "normalize, denormalize)\n" ++ "#endif\n" ++
          "#ifdef HANDLE_OPT_VALUES\n" ++ "HANDLE_OPT_VALUES(\"a\",Foo::X)\n" ++
          "HANDLE_OPT_VALUES(\"b\",Foo::Y)\n" ++ "HANDLE_OPT_VALUES(\"c\",Foo::Z)\n" ++
          "#endif\n") :=
  ⟨by decide,
    (value_table_pairing [([], "prefix_0"), (["-"], "prefix_1")] "" scenarioC "a,b,c"
      ["X", "Y", "Z"] rfl rfl (by decide) (by decide)).1,
    by decide⟩

/-! ## Option rows as text -/

theorem write_cstring_eq (OS Str : String) : write_cstring OS Str = OS ++ quoted Str := by
  simp [write_cstring, quoted, String.append_assoc]

theorem writeHelpText_eq (OS : String) (HelpText : Option String) :
    writeHelpText OS HelpText = OS ++ helpTextField HelpText := by
  cases HelpText <;> simp [writeHelpText, helpTextField, write_cstring_eq, String.append_assoc]

theorem writeAliasArgs_eq (OS : String) (AliasArgs : List String) :
    writeAliasArgs OS AliasArgs = OS ++ aliasArgsField AliasArgs := by
  unfold writeAliasArgs aliasArgsField
  by_cases h : AliasArgs.length = 0
  · simp [h]
  · simp only [h, if_false]
    rw [foldl_append_text (fun OS Arg => OS ++ Arg ++ "\\0") (fun Arg => Arg ++ "\\0")
      (by intro OS x; simp [String.append_assoc])]
    simp [String.append_assoc]

theorem WriteOptRecordFields_eq (Prefixes : PrefixesT) (OS : String) (R : OptionRec) :
    WriteOptRecordFields Prefixes OS R = OS ++ optionFields Prefixes R := by
  unfold WriteOptRecordFields optionFields writePrefix
  simp only [write_cstring_eq, writeHelpText_eq, writeAliasArgs_eq, writeFlags_eq]
  cases R.Group <;> cases R.Alias <;> cases R.MetaVarName <;> cases R.Values <;>
    simp [refField, optQuoted, write_cstring_eq, String.append_assoc, OptionGroup.head]

/-! ## Marshalling rows -/

set_option maxRecDepth 100000 in
/-- C8 (unknown marshalling kind), the code at the failing input. For the option
`unknownKindOption`, whose `MarshallingKind` is `bogus` and whose `KeyPath` and
`DefaultValue` are present, the marshalling pass is not a silent no-op: it writes
the `#ifdef` line with the empty guard name and the start of a row with the empty
macro name, and then it calls `Emit`, which is the null pointer for such a kind
(line 311); the pass ends there and `EmitOptParser` does not return. -/
theorem unknown_kind_not_silent :
    emitMarshalledOption [([], "prefix_0")] "" unknownKindOption
      = .aborted ("#ifdef \n" ++ "(prefix_0, \"d\", d, Flag, INVALID, INVALID, nullptr, 0, 0, "
          ++ "nullptr, nullptr, nullptr, 0, Opts.D, X,") .nullEmit ∧
    (EmitOptParser [] [unknownKindOption] "").completed = false := by
  decide

/-! ## The marshalling loop -/

theorem marshallingPasses_not_completed (P : PrefixesT) :
    ∀ (Q : List OptionRec) (OS : String),
      (∃ R, R ∈ Q ∧ ∀ OS1, (emitMarshalledOption P OS1 R).completed = false) →
      (marshallingPasses P Q OS).completed = false := by
  intro Q
  induction Q with
  | nil => intro OS h; obtain ⟨R, hR, _⟩ := h; simp at hR
  | cons R0 Q ih =>
    intro OS h
    obtain ⟨R, hR, hfail⟩ := h
    simp only [marshallingPasses]
    cases hhead : emitMarshalledOption P OS R0 with
    | aborted OS1 why => simp [Outcome.andThen, Outcome.completed]
    | done OS1 =>
      simp only [Outcome.andThen]
      rcases List.mem_cons.mp hR with rfl | hmem
      · have := hfail OS
        rw [hhead] at this
        simp [Outcome.completed] at this
      · exact ih OS1 ⟨R, hmem, hfail⟩

theorem marshallingPasses_aborted (P : PrefixesT) :
    ∀ (Q : List OptionRec) (OS text : String) (why : Fatal),
      marshallingPasses P Q OS = .aborted text why →
      ∃ R, R ∈ Q ∧ ∃ OS1, emitMarshalledOption P OS1 R = .aborted text why := by
  intro Q
  induction Q with
  | nil => intro OS text why h; simp [marshallingPasses] at h
  | cons R0 Q ih =>
    intro OS text why h
    simp only [marshallingPasses] at h
    cases hhead : emitMarshalledOption P OS R0 with
    | aborted OS1 why1 =>
      rw [hhead] at h
      simp only [Outcome.andThen] at h
      exact ⟨R0, by simp, OS, by rw [hhead, h]⟩
    | done OS1 =>
      rw [hhead] at h
      simp only [Outcome.andThen] at h
      obtain ⟨R, hR, hab⟩ := ih OS1 text why h
      exact ⟨R, List.mem_cons_of_mem _ hR, hab⟩

theorem mem_queue (Opts : List OptionRec) (hlen : Opts.length < 4294967296) (R : OptionRec)
    (hR : R ∈ Opts) (hkind : R.MarshallingKind.isSome = true) :
    R ∈ loopRange (OptsWithMarshalling Opts) := by
  have hq : OptsWithMarshalling Opts = Opts.filter (fun R => R.MarshallingKind.isSome) := by
    simp [OptsWithMarshalling, loopRange_of_lt _ hlen]
  have hl : (OptsWithMarshalling Opts).length < 4294967296 := by
    rw [hq]
    exact lt_of_le_of_lt (List.length_filter_le _ _) hlen
  rw [loopRange_of_lt _ hl, hq]
  exact List.mem_filter.mpr ⟨hR, hkind⟩

theorem mem_of_mem_loopRange {α : Type} (V : List α) (x : α) (h : x ∈ loopRange V) : x ∈ V :=
  List.mem_of_mem_take h

theorem of_mem_queue (Opts : List OptionRec) (R : OptionRec)
    (hR : R ∈ loopRange (OptsWithMarshalling Opts)) :
    R ∈ Opts ∧ R.MarshallingKind.isSome = true := by
  have h1 := mem_of_mem_loopRange _ _ hR
  simp only [OptsWithMarshalling, List.mem_filter] at h1
  exact ⟨mem_of_mem_loopRange _ _ h1.1, h1.2⟩

theorem EmitOptParser_completed (Groups : List OptionGroup) (Opts : List OptionRec)
    (OS : String) :
    (EmitOptParser Groups Opts OS).completed
      = (marshallingPasses (internPrefixes Opts).1 (loopRange (OptsWithMarshalling Opts))
          (emitOptions (internPrefixes Opts).1 Opts
            (emitGroups Groups (dumpPrefixes (internPrefixes Opts).1 OS)))).completed := by
  unfold EmitOptParser emitMarshalling
  simp only []
  cases marshallingPasses (internPrefixes Opts).1 (loopRange (OptsWithMarshalling Opts))
    (emitOptions (internPrefixes Opts).1 Opts
      (emitGroups Groups (dumpPrefixes (internPrefixes Opts).1 OS))) <;>
    simp [Outcome.andThen, Outcome.completed]

theorem EmitOptParser_aborted (Groups : List OptionGroup) (Opts : List OptionRec)
    (OS text : String) (why : Fatal) (h : EmitOptParser Groups Opts OS = .aborted text why) :
    marshallingPasses (internPrefixes Opts).1 (loopRange (OptsWithMarshalling Opts))
        (emitOptions (internPrefixes Opts).1 Opts
          (emitGroups Groups (dumpPrefixes (internPrefixes Opts).1 OS)))
      = .aborted text why := by
  unfold EmitOptParser emitMarshalling at h
  simp only [] at h
  cases hm : marshallingPasses (internPrefixes Opts).1 (loopRange (OptsWithMarshalling Opts))
    (emitOptions (internPrefixes Opts).1 Opts
      (emitGroups Groups (dumpPrefixes (internPrefixes Opts).1 OS))) with
  | done OS1 => rw [hm] at h; simp [Outcome.andThen] at h
  | aborted OS1 why1 => rw [hm] at h; simpa [Outcome.andThen] using h

theorem prerequisite_missing_aborts (P : PrefixesT) (OS : String) (R : OptionRec)
    (h : R.KeyPath = none ∨ R.DefaultValue = none) :
    emitMarshallingRow P OS R = .aborted OS (.assertFailed prerequisiteMessage) := by
  unfold emitMarshallingRow
  rcases h with h | h
  · rw [h]
  · rw [h]
    cases R.KeyPath <;> rfl

theorem emitOptionValueTable_not_prerequisite (OS text : String) (R : OptionRec) :
    emitOptionValueTable OS R ≠ .aborted text (.assertFailed prerequisiteMessage) := by
  unfold emitOptionValueTable
  cases R.NormalizedValues with
  | none => simp
  | some nvs =>
    cases R.Values with
    | none =>
      simp only [ne_eq, Outcome.aborted.injEq, Fatal.assertFailed.injEq, not_and]
      intro _
      decide
    | some v =>
      simp only [emitValueTable_eq]
      split
      · simp only [ne_eq, Outcome.aborted.injEq, Fatal.assertFailed.injEq, not_and]
        intro _
        decide
      · simp

theorem prerequisite_abort_source (P : PrefixesT) (OS text : String) (R : OptionRec)
    (h : emitMarshalledOption P OS R = .aborted text (.assertFailed prerequisiteMessage)) :
    R.KeyPath = none ∨ R.DefaultValue = none := by
  cases hk : R.KeyPath with
  | none => exact Or.inl rfl
  | some KeyPath =>
    cases hd : R.DefaultValue with
    | none => exact Or.inr rfl
    | some DefaultValue =>
      exfalso
      unfold emitMarshalledOption emitMarshallingRow at h
      simp only [hk, hd] at h
      cases hm : R.MarshallingKind with
      | none => simp [hm, Outcome.andThen] at h
      | some KindStr =>
        simp only [hm] at h
        by_cases hf : KindStr = "flag"
        · simp only [kindInfo, hf, if_true, emitMarshallingInfoFlag, Outcome.andThen] at h
          exact emitOptionValueTable_not_prerequisite _ _ _ h
        · by_cases hs : KindStr = "string"
          · have hne : ¬ ("string" = "flag") := by decide
            simp only [kindInfo, hs, hne, if_true, if_false, emitMarshallingInfoString] at h
            cases hn : R.Normalizer with
            | none => simp [hn, Outcome.andThen] at h
            | some n =>
              cases hdn : R.Denormalizer with
              | none => simp [hn, hdn, Outcome.andThen] at h
              | some d =>
                simp only [hn, hdn, Outcome.andThen] at h
                exact emitOptionValueTable_not_prerequisite _ _ _ h
          · simp [kindInfo, hf, hs, Outcome.andThen] at h

/-- C9 (missing marshalling prerequisites are fatal). For every input of fewer
than `2 ^ 32` options: when some option has `MarshallingKind` set and `KeyPath` or
`DefaultValue` unset, `EmitOptParser` does not return; and conversely, when the
run ends at the prerequisite assertion, some option has `MarshallingKind` set and
`KeyPath` or `DefaultValue` unset, so that the assertion never ends the run for
an option that has both, nor for one whose `MarshallingKind` is unset. -/
theorem marshalling_prerequisites (Groups : List OptionGroup) (Opts : List OptionRec)
    (OS : String) (hlen : Opts.length < 4294967296) :
    ((∃ R, R ∈ Opts ∧ R.MarshallingKind.isSome = true ∧
        (R.KeyPath = none ∨ R.DefaultValue = none)) →
      (EmitOptParser Groups Opts OS).completed = false) ∧
    (∀ text, EmitOptParser Groups Opts OS = .aborted text (.assertFailed prerequisiteMessage) →
      ∃ R, R ∈ Opts ∧ R.MarshallingKind.isSome = true ∧
        (R.KeyPath = none ∨ R.DefaultValue = none)) := by
  constructor
  · rintro ⟨R, hR, hkind, hmiss⟩
    rw [EmitOptParser_completed]
    apply marshallingPasses_not_completed
    refine ⟨R, mem_queue Opts hlen R hR hkind, ?_⟩
    intro OS1
    simp [emitMarshalledOption, prerequisite_missing_aborts _ _ _ hmiss, Outcome.andThen,
      Outcome.completed]
  · intro text h
    obtain ⟨R, hR, OS1, hab⟩ := marshallingPasses_aborted _ _ _ _ _
      (EmitOptParser_aborted Groups Opts OS text _ h)
    obtain ⟨hmem, hkind⟩ := of_mem_queue Opts R hR
    exact ⟨R, hmem, hkind, prerequisite_abort_source _ _ _ _ hab⟩

/-- C9 at an input with a `flag` kind option that has no `KeyPath`. -/
theorem marshalling_prerequisites_witness :
    (EmitOptParser [] [missingKeyPathOption] "").completed = false :=
  (marshalling_prerequisites [] [missingKeyPathOption] "" (by decide)).1
    ⟨missingKeyPathOption, by simp, rfl, Or.inl rfl⟩

set_option maxRecDepth 100000 in
/-- C10, as stated, fails: an option that has `NormalizedValues` and no `Values`,
and one whose token count differs from the number of normalized values, do not end
the run when their `MarshallingKind` is unset: `EmitOptParser` returns. -/
theorem normalized_values_unchecked_when_unqueued :
    (EmitOptParser [] [unqueuedValuelessOption] "").completed = true ∧
    (EmitOptParser [] [unqueuedMismatchOption] "").completed = true := by
  decide

/-! ## Rows as text -/

theorem escapeChar_plain (c : Char) (h : isPlain c = true) : escapeChar c = [c] := by
  simp only [isPlain, Bool.and_eq_true, decide_eq_true_eq, bne_iff_ne, ne_eq] at h
  obtain ⟨⟨hp, hq⟩, hb⟩ := h
  have h9 : ¬ c = Char.ofNat 9 := by
    intro e; rw [e] at hp; revert hp; decide
  have h10 : ¬ c = Char.ofNat 10 := by
    intro e; rw [e] at hp; revert hp; decide
  simp [escapeChar, hb, h9, h10, hq, hp]

theorem write_escaped_plain (Str : String) (h : Str.data.all isPlain = true) :
    write_escaped Str = Str := by
  have key : ∀ l : List Char, l.all isPlain = true → l.flatMap escapeChar = l := by
    intro l
    induction l with
    | nil => intro _; rfl
    | cons c cs ih =>
      intro hl
      simp only [List.all_cons, Bool.and_eq_true] at hl
      simp [List.flatMap_cons, escapeChar_plain c hl.1, ih hl.2]
  unfold write_escaped
  rw [key _ h]

theorem mapIndex_empty (Opts : List OptionRec) :
    mapIndex (internPrefixes Opts).1 [] = "prefix_0" := by
  have := mapIndex_of_inv (internInv_loopRange Opts) 0 (by simp [internedKeys])
  simpa [internedKeys] using this

theorem emitOptionRow_eq (P : PrefixesT) (OS : String) (R : OptionRec) :
    emitOptionRow P OS R = OS ++ ("OPTION(" ++ optionFields P R ++ ")\n") := by
  simp [emitOptionRow, WriteOptRecordFields_eq, String.append_assoc]

/-- C11 (scenario A, the minimal option row). For every option with empty
`Prefixes`, no `Group`, no `Alias`, empty `AliasArgs`, empty `Flags` and
`HelpText`, `MetaVarName` and `Values` all unset, and whatever the other options
are, the row written is `OPTION(prefix_0, ` the quoted `Name`, `EnumName` or else
the record name, the name of the `Kind`, `INVALID, INVALID, nullptr, 0,`
`NumArgs`, and `nullptr, nullptr, nullptr)`; the quoted `Name` is `Name` between
double quotes when `Name` has nothing to escape. -/
theorem minimal_option_row (Opts : List OptionRec) (OS : String) (R : OptionRec)
    (hp : R.Prefixes = []) (hg : R.Group = none) (ha : R.Alias = none)
    (haa : R.AliasArgs = []) (hf : R.Flags = []) (hh : R.HelpText = none)
    (hm : R.MetaVarName = none) (hv : R.Values = none) :
    emitOptionRow (internPrefixes Opts).1 OS R
      = OS ++ "OPTION(prefix_0, " ++ quoted R.Name ++ ", " ++ R.EnumName.getD R.recName
          ++ ", " ++ R.Kind.Name ++ ", INVALID, INVALID, nullptr, 0, " ++ toString R.NumArgs
          ++ ", nullptr, nullptr, nullptr)\n" ∧
    (R.Name.data.all isPlain = true → quoted R.Name = "\"" ++ R.Name ++ "\"") := by
  constructor
  · have hname : getOptionName R.head = R.EnumName.getD R.recName := by
      unfold getOptionName OptionRec.head
      cases R.EnumName <;> rfl
    rw [emitOptionRow_eq]
    unfold optionFields
    rw [hp, hg, ha, haa, hh, hm, hv, mapIndex_empty, hname]
    have hfl : flagNames R = [] := by simp [flagNames, hf, hg]
    rw [hfl]
    have hlit : ∀ X : String, "OPTION(" ++ ("prefix_0, " ++ X) = "OPTION(prefix_0, " ++ X := by
      intro X
      rw [← String.append_assoc]
      rfl
    simp [refField, aliasArgsField, flagsText, helpTextField, optQuoted, String.append_assoc,
      hlit]
  · intro h
    rw [quoted, write_escaped_plain _ h]

set_option maxRecDepth 100000 in
/-- C11 at the option of scenario A, listed after an option with prefixes. -/
theorem minimal_option_row_witness :
    emitOptionRow (internPrefixes [scenarioB1, scenarioA]).1 "" scenarioA
      = "" ++ "OPTION(prefix_0, " ++ quoted scenarioA.Name ++ ", "
          ++ scenarioA.EnumName.getD scenarioA.recName
          ++ ", " ++ scenarioA.Kind.Name ++ ", INVALID, INVALID, nullptr, 0, "
          ++ toString scenarioA.NumArgs ++ ", nullptr, nullptr, nullptr)\n" ∧
    emitOptionRow (internPrefixes [scenarioB1, scenarioA]).1 "" scenarioA
      = "OPTION(prefix_0, \"help\", help, Flag, INVALID, INVALID, nullptr, 0, 0, "
          ++ "nullptr, nullptr, nullptr)\n" :=
  ⟨(minimal_option_row [scenarioB1, scenarioA] "" scenarioA rfl rfl rfl rfl rfl rfl rfl rfl).1,
    by decide⟩

/-- C12 (alias-argument packing). For every list of alias arguments the field
written is `nullptr` when the list is empty, and otherwise one double-quoted
string whose body is the arguments in list order, each of them, the last one
too, followed by the two characters `\0`; the list `foo`, `bar` gives
`"foo\0bar\0"`. -/
theorem alias_args_packing (OS : String) (AliasArgs : List String) :
    writeAliasArgs OS AliasArgs
      = OS ++ (if AliasArgs = [] then "nullptr"
          else "\"" ++ String.join (AliasArgs.map (fun Arg => Arg ++ "\\0")) ++ "\"") ∧
    writeAliasArgs OS [] = OS ++ "nullptr" ∧
    writeAliasArgs "" ["foo", "bar"] = "\"foo\\0bar\\0\"" ∧
    ("\\0".data = [Char.ofNat 92, '0']) := by
  refine ⟨?_, ?_, by decide, by decide⟩
  · rw [writeAliasArgs_eq, aliasArgsField]
    cases AliasArgs <;> simp
  · rw [writeAliasArgs_eq]; rfl

/-! ## Marshalling rows of the two kinds -/

theorem scopeOf_prefix (R : OptionRec) :
    (if scopeOf R ≠ "" then scopeOf R ++ "::" else "")
      = (match R.NormalizedValuesScope with
         | some Scope => if Scope ≠ "" then Scope ++ "::" else ""
         | none => "") := by
  unfold scopeOf
  cases R.NormalizedValuesScope <;> simp

theorem emitScopedNormalizedValue_eq (OS Scope Value : String) :
    emitScopedNormalizedValue OS Scope Value
      = OS ++ ((if Scope ≠ "" then Scope ++ "::" else "") ++ Value) := by
  unfold emitScopedNormalizedValue
  by_cases h : Scope = "" <;> simp [h, String.append_assoc]

/-- The marshalling row up to the call of `Emit`, for a kind that the switch knows. -/
theorem emitMarshallingRow_known (P : PrefixesT) (OS : String) (R : OptionRec)
    (KindStr KeyPath DefaultValue : String) (Emit : String → OptionRec → Outcome)
    (hkind : R.MarshallingKind = some KindStr) (hkey : R.KeyPath = some KeyPath)
    (hdef : R.DefaultValue = some DefaultValue)
    (hemit : (kindInfo KindStr).Emit = some Emit) :
    emitMarshallingRow P OS R
      = (Emit (OS ++ marshallingRowStart (kindInfo KindStr).MacroName P R KeyPath DefaultValue)
          R).andThen (fun OS => .done (OS ++ ")\n" ++ "#endif\n")) := by
  unfold emitMarshallingRow
  simp only [hkey, hdef, hkind, hemit, WriteOptRecordFields_eq, emitScopedNormalizedValue_eq,
    scopeOf_prefix, marshallingRowStart, String.append_assoc]

set_option maxRecDepth 100000 in
/-- C13, as stated, fails when `NormalizedValuesScope` is set to the empty string:
the `string` kind row has the unqualified `DefaultValue` (`Opts.Field, X,`), while
`Scope::DefaultValue` for the set scope would be `::X`. -/
theorem string_row_empty_scope :
    emitMarshallingRow [([], "prefix_0"), (["-"], "prefix_1")] "" emptyScopeOption
      = .done ("#ifdef OPTION_WITH_MARSHALLING_STRING\n" ++
          "OPTION_WITH_MARSHALLING_STRING(prefix_1, \"opt\", opt, Joined, INVALID, INVALID, "
          ++ "nullptr, 0, 0, nullptr, nullptr, \"a,b,c\", 0, Opts.Field, X,"
          ++ "normalize, denormalize)\n" ++ "#endif\n") ∧
    claimedStringRow [([], "prefix_0"), (["-"], "prefix_1")] emptyScopeOption "Opts.Field" "X"
        "normalize" "denormalize"
      = "#ifdef OPTION_WITH_MARSHALLING_STRING\n" ++
          "OPTION_WITH_MARSHALLING_STRING(prefix_1, \"opt\", opt, Joined, INVALID, INVALID, "
          ++ "nullptr, 0, 0, nullptr, nullptr, \"a,b,c\", 0, Opts.Field, ::X,"
          ++ "normalize, denormalize)\n" ++ "#endif\n" := by
  decide

/-- C13, amended (the `string` kind marshalling row). For every option with
`MarshallingKind = "string"` and `KeyPath`, `DefaultValue`, `Normalizer` and
`Denormalizer` set, the row written is `OPTION_WITH_MARSHALLING_STRING(` followed
by the twelve fields of the option row, then `ShouldAlwaysEmit`, then `KeyPath` as
it is, then `DefaultValue`, written as `Scope::DefaultValue` when
`NormalizedValuesScope` is set to a string that is not empty and unqualified when
it is unset or empty; after a comma the payload is `Normalizer`, a comma and a
blank, `Denormalizer`, and the closing bracket follows at once. The twelve fields
are those of the option's `OPTION` row. -/
theorem string_marshalling_row (P : PrefixesT) (OS : String) (R : OptionRec)
    (KeyPath DefaultValue Normalizer Denormalizer : String)
    (hkind : R.MarshallingKind = some "string") (hkey : R.KeyPath = some KeyPath)
    (hdef : R.DefaultValue = some DefaultValue) (hn : R.Normalizer = some Normalizer)
    (hd : R.Denormalizer = some Denormalizer) :
    emitMarshallingRow P OS R
      = .done (OS ++ "#ifdef OPTION_WITH_MARSHALLING_STRING\n"
          ++ "OPTION_WITH_MARSHALLING_STRING(" ++ optionFields P R ++ ", "
          ++ writeBit R.ShouldAlwaysEmit ++ ", " ++ KeyPath ++ ", "
          ++ (match R.NormalizedValuesScope with
              | some Scope => if Scope ≠ "" then Scope ++ "::" else ""
              | none => "")
          ++ DefaultValue ++ "," ++ Normalizer ++ ", " ++ Denormalizer ++ ")\n"
          ++ "#endif\n") ∧
    emitOptionRow P OS R = OS ++ "OPTION(" ++ optionFields P R ++ ")\n" := by
  constructor
  · rw [emitMarshallingRow_known P OS R "string" KeyPath DefaultValue emitMarshallingInfoString
      hkind hkey hdef (by simp [kindInfo])]
    have hm : (kindInfo "string").MacroName = "OPTION_WITH_MARSHALLING_STRING" := by
      simp [kindInfo]
    have hlit : ∀ X : String,
        "#ifdef " ++ ("OPTION_WITH_MARSHALLING_STRING" ++ ("\n" ++
          ("OPTION_WITH_MARSHALLING_STRING" ++ ("(" ++ X))))
        = "#ifdef OPTION_WITH_MARSHALLING_STRING\n" ++ ("OPTION_WITH_MARSHALLING_STRING(" ++ X) := by
      intro X
      simp only [← String.append_assoc]
      rfl
    simp only [emitMarshallingInfoString, hn, hd, Outcome.andThen, hm, marshallingRowStart,
      String.append_assoc, hlit]
  · rw [emitOptionRow_eq]
    simp [String.append_assoc]

set_option maxRecDepth 100000 in
/-- C13, amended, at the option of scenario C, whose scope is `Foo`. -/
theorem string_marshalling_row_witness :
    emitMarshallingRow [([], "prefix_0"), (["-"], "prefix_1")] "" scenarioC
      = .done ("" ++ "#ifdef OPTION_WITH_MARSHALLING_STRING\n"
          ++ "OPTION_WITH_MARSHALLING_STRING("
          ++ optionFields [([], "prefix_0"), (["-"], "prefix_1")] scenarioC ++ ", "
          ++ writeBit scenarioC.ShouldAlwaysEmit ++ ", " ++ "Opts.Field" ++ ", "
          ++ (match scenarioC.NormalizedValuesScope with
              | some Scope => if Scope ≠ "" then Scope ++ "::" else ""
              | none => "")
          ++ "X" ++ "," ++ "normalize" ++ ", " ++ "denormalize" ++ ")\n" ++ "#endif\n") ∧
    emitMarshallingRow [([], "prefix_0"), (["-"], "prefix_1")] "" scenarioC
      = .done ("#ifdef OPTION_WITH_MARSHALLING_STRING\n" ++
          "OPTION_WITH_MARSHALLING_STRING(prefix_1, \"opt\", opt, Joined, INVALID, INVALID, "
          ++ "nullptr, 0, 0, nullptr, nullptr, \"a,b,c\", 0, Opts.Field, Foo::X,"
          ++ "normalize, denormalize)\n" ++ "#endif\n") :=
  ⟨(string_marshalling_row [([], "prefix_0"), (["-"], "prefix_1")] "" scenarioC "Opts.Field"
      "X" "normalize" "denormalize" rfl rfl rfl rfl rfl).1,
    by decide⟩

set_option maxRecDepth 100000 in
/-- C14, as stated, fails: the final field of a `flag` kind row is `1` for
`IsPositive` true and `0` for `IsPositive` false, not the literals `true` and
`false`. -/
theorem flag_row_final_field :
    emitMarshallingRow [([], "prefix_0"), (["-"], "prefix_1")] "" positiveFlagOption
      = .done ("#ifdef OPTION_WITH_MARSHALLING_FLAG\n" ++
          "OPTION_WITH_MARSHALLING_FLAG(prefix_1, \"fx\", fx, Flag, INVALID, INVALID, "
          ++ "nullptr, 0, 0, nullptr, nullptr, nullptr, 0, Opts.X, false," ++ "1" ++ ")\n"
          ++ "#endif\n") ∧
    emitMarshallingRow [([], "prefix_0"), (["-"], "prefix_1")] ""
        { positiveFlagOption with IsPositive := false }
      = .done ("#ifdef OPTION_WITH_MARSHALLING_FLAG\n" ++
          "OPTION_WITH_MARSHALLING_FLAG(prefix_1, \"fx\", fx, Flag, INVALID, INVALID, "
          ++ "nullptr, 0, 0, nullptr, nullptr, nullptr, 0, Opts.X, false," ++ "0" ++ ")\n"
          ++ "#endif\n") ∧
    claimedBoolLiteral true = "true" ∧ claimedBoolLiteral false = "false" := by
  decide

/-- C14, amended (scenario D, the `flag` kind marshalling row). For every two
options with `MarshallingKind = "flag"` (and `KeyPath` and `DefaultValue` set) that
are the same except that `IsPositive` is true in one and false in the other, the
two marshalling rows are the same text up to the final field, and the final field
is `IsPositive` as the stream writes a `bool`: `1` for true and `0` for false. -/
theorem flag_marshalling_row (P : PrefixesT) (OS : String) (R : OptionRec)
    (KeyPath DefaultValue : String)
    (hkind : R.MarshallingKind = some "flag") (hkey : R.KeyPath = some KeyPath)
    (hdef : R.DefaultValue = some DefaultValue) :
    emitMarshallingRow P OS { R with IsPositive := true }
      = .done (OS ++ marshallingRowStart "OPTION_WITH_MARSHALLING_FLAG" P R KeyPath DefaultValue
          ++ "1" ++ ")\n" ++ "#endif\n") ∧
    emitMarshallingRow P OS { R with IsPositive := false }
      = .done (OS ++ marshallingRowStart "OPTION_WITH_MARSHALLING_FLAG" P R KeyPath DefaultValue
          ++ "0" ++ ")\n" ++ "#endif\n") := by
  have hm : (kindInfo "flag").MacroName = "OPTION_WITH_MARSHALLING_FLAG" := by
    simp [kindInfo]
  constructor
  · rw [emitMarshallingRow_known P OS { R with IsPositive := true } "flag" KeyPath DefaultValue
      emitMarshallingInfoFlag hkind hkey hdef (by simp [kindInfo])]
    simp only [emitMarshallingInfoFlag, Outcome.andThen, hm, writeBit, if_true]
    rfl
  · rw [emitMarshallingRow_known P OS { R with IsPositive := false } "flag" KeyPath DefaultValue
      emitMarshallingInfoFlag hkind hkey hdef (by simp [kindInfo])]
    simp only [emitMarshallingInfoFlag, Outcome.andThen, hm, writeBit]
    rfl

set_option maxRecDepth 100000 in
/-- C14, amended, at a `flag` kind option. -/
theorem flag_marshalling_row_witness :
    emitMarshallingRow [([], "prefix_0"), (["-"], "prefix_1")] ""
        { positiveFlagOption with IsPositive := false }
      = .done ("" ++ marshallingRowStart "OPTION_WITH_MARSHALLING_FLAG"
          [([], "prefix_0"), (["-"], "prefix_1")] positiveFlagOption "Opts.X" "false"
          ++ "0" ++ ")\n" ++ "#endif\n") ∧
    marshallingRowStart "OPTION_WITH_MARSHALLING_FLAG"
        [([], "prefix_0"), (["-"], "prefix_1")] positiveFlagOption "Opts.X" "false"
      = "#ifdef OPTION_WITH_MARSHALLING_FLAG\n" ++
          "OPTION_WITH_MARSHALLING_FLAG(prefix_1, \"fx\", fx, Flag, INVALID, INVALID, "
          ++ "nullptr, 0, 0, nullptr, nullptr, nullptr, 0, Opts.X, false," :=
  ⟨(flag_marshalling_row [([], "prefix_0"), (["-"], "prefix_1")] "" positiveFlagOption
      "Opts.X" "false" rfl rfl rfl).2,
    by decide⟩

/-! ## The blocks of the output -/

theorem emitGroupRow_eq (OS : String) (G : OptionGroup) :
    emitGroupRow OS G = OS ++ groupRowText G := by
  unfold emitGroupRow groupRowText
  simp only [writeHelpText_eq]
  cases G.Group <;> simp [refField, String.append_assoc]

theorem emitGroups_eq (Groups : List OptionGroup) (OS : String) :
    emitGroups Groups OS
      = OS ++ "/////////\n" ++ "// Groups\n\n" ++ "#ifdef OPTION\n"
          ++ String.join ((loopRange Groups).map groupRowText) ++ "\n" := by
  unfold emitGroups
  simp only []
  rw [foldl_append_text emitGroupRow groupRowText emitGroupRow_eq]

theorem emitOptions_eq (P : PrefixesT) (Opts : List OptionRec) (OS : String) :
    emitOptions P Opts OS
      = OS ++ "//////////\n" ++ "// Options\n\n"
          ++ String.join ((loopRange Opts).map (optionRowText P)) ++ "#endif // OPTION\n" := by
  unfold emitOptions
  simp only []
  rw [foldl_append_text (emitOptionRow P) (optionRowText P) (emitOptionRow_eq P)]

/-- C15 (the shape of group rows). For every list of fewer than `2 ^ 32` groups,
the group block is its three heading lines, one `OPTION` row per group in input
order, and an empty line; the option rows are written after it; and the row of a
group has twelve fields: `nullptr`, the group `Name` between double quotes,
`EnumName` or else the record name, the tag `Group`, the identifier of the parent
group or `INVALID`, then `INVALID, nullptr, 0, 0`, then the quoted `HelpText` (on
a line of its own) or `nullptr`, then `nullptr` and `nullptr`. -/
theorem group_row_shape (Groups : List OptionGroup) (Opts : List OptionRec) (P : PrefixesT)
    (OS : String) (hlen : Groups.length < 4294967296) :
    emitGroups Groups OS
      = OS ++ "/////////\n" ++ "// Groups\n\n" ++ "#ifdef OPTION\n"
          ++ String.join (Groups.map groupRowText) ++ "\n" ∧
    emitOptions P Opts (emitGroups Groups OS)
      = OS ++ "/////////\n" ++ "// Groups\n\n" ++ "#ifdef OPTION\n"
          ++ String.join (Groups.map groupRowText) ++ "\n"
          ++ "//////////\n" ++ "// Options\n\n"
          ++ String.join ((loopRange Opts).map (optionRowText P)) ++ "#endif // OPTION\n" ∧
    ∀ G : OptionGroup, groupRowText G
      = "OPTION(" ++ "nullptr" ++ ", " ++ "\"" ++ G.Name ++ "\"" ++ ", "
          ++ G.EnumName.getD G.recName ++ ", " ++ "Group" ++ ", "
          ++ (match G.Group with
              | some Parent => Parent.EnumName.getD Parent.recName
              | none => "INVALID")
          ++ ", " ++ "INVALID" ++ ", " ++ "nullptr" ++ ", " ++ "0" ++ ", " ++ "0"
          ++ (match G.HelpText with
              | some HelpText => ",\n" ++ "       " ++ "\"" ++ write_escaped HelpText ++ "\""
              | none => ", " ++ "nullptr")
          ++ ", " ++ "nullptr" ++ ", " ++ "nullptr" ++ ")\n" := by
  have hg := emitGroups_eq Groups OS
  rw [loopRange_of_lt _ hlen] at hg
  refine ⟨hg, ?_, ?_⟩
  · rw [emitOptions_eq, hg]
  · intro G
    have hname : ∀ H : RecordHead, getOptionName H = H.EnumName.getD H.recName := by
      intro H
      unfold getOptionName
      cases H.EnumName <;> rfl
    unfold groupRowText
    rw [hname]
    have e1 : ∀ X : String, ", \"" ++ X = ", " ++ ("\"" ++ X) := by
      intro X; rw [← String.append_assoc]; rfl
    have e2 : ∀ X : String, ", Group" ++ X = ", " ++ ("Group" ++ X) := by
      intro X; rw [← String.append_assoc]; rfl
    have e3 : ∀ X : String, ", INVALID, nullptr, 0, 0" ++ X
        = ", " ++ ("INVALID" ++ (", " ++ ("nullptr" ++ (", " ++ ("0" ++ (", " ++ ("0" ++ X))))))) := by
      intro X; simp only [← String.append_assoc]; rfl
    have e4 : ", nullptr" = ", " ++ "nullptr" := rfl
    have e5 : ", nullptr)\n" = ", " ++ ("nullptr" ++ ")\n") := rfl
    cases hG : G.Group <;> cases hH : G.HelpText <;>
      simp only [refField, helpTextField, quoted, Option.map, hname, OptionGroup.head,
        String.append_assoc, e1, e2, e3, e4, e5]

set_option maxRecDepth 100000 in
/-- C15 at a group with help text and a group below it. -/
theorem group_row_shape_witness :
    emitGroups [parentGroup, childGroup] ""
      = "" ++ "/////////\n" ++ "// Groups\n\n" ++ "#ifdef OPTION\n"
          ++ String.join ([parentGroup, childGroup].map groupRowText) ++ "\n" ∧
    String.join ([parentGroup, childGroup].map groupRowText)
      = "OPTION(nullptr, \"<action group>\", Action_Group, Group, INVALID, INVALID, "
          ++ "nullptr, 0, 0,\n       \"Actions\", nullptr, nullptr)\n"
          ++ "OPTION(nullptr, \"<f group>\", f_Group, Group, Action_Group, INVALID, "
          ++ "nullptr, 0, 0, nullptr, nullptr, nullptr)\n" :=
  ⟨(group_row_shape [parentGroup, childGroup] [] [] "" (by decide)).1, by decide⟩

theorem emitAddValues_eq (Name OS Prefix : String) :
    emitAddValues Name OS Prefix = OS ++ addValuesText Name Prefix := by
  simp [emitAddValues, addValuesText, write_cstring_eq, String.append_assoc]

theorem emitValueInit_eq (OS : String) (R : OptionRec) :
    emitValueInit OS R = OS ++ emitValueInit "" R := by
  unfold emitValueInit
  cases R.ValuesCode with
  | none => simp
  | some ValuesCode =>
    simp only []
    rw [foldl_append_text _ _ (emitAddValues_eq R.Name),
      foldl_append_text _ _ (emitAddValues_eq R.Name)]
    simp [String.append_assoc]

/-- C16 (the value-init block). For every list of fewer than `2 ^ 32` options the
block is its heading lines, the contribution of each option in order, and its
closing lines. An option with `ValuesCode` unset contributes nothing. An option
with `ValuesCode` set contributes, between braces, the declaration of
`ValuesWereAdded`, its `ValuesCode` fragment once, and one registration statement
per prefix, in prefix order: `ValuesWereAdded = Opt.addValues(` with the quoted
prefix followed by `Name`, `, Values);`, the cast to `void` and the assertion on
`ValuesWereAdded`; with empty `Prefixes` there is no registration statement. The
contribution is the same whatever `MarshallingKind` is. -/
theorem value_init_block (Opts : List OptionRec) (OS : String)
    (hlen : Opts.length < 4294967296) :
    emitValueInits Opts OS
      = OS ++ "\n" ++ "#ifdef OPTTABLE_ARG_INIT\n" ++ "//////////\n" ++ "// Option Values\n\n"
          ++ String.join (Opts.map (emitValueInit "")) ++ "\n"
          ++ "#endif // OPTTABLE_ARG_INIT\n" ∧
    (∀ R : OptionRec, R.ValuesCode = none → emitValueInit "" R = "") ∧
    (∀ (R : OptionRec) (ValuesCode : String), R.ValuesCode = some ValuesCode →
      emitValueInit "" R
        = "\x7b\n" ++ "bool ValuesWereAdded;\n" ++ ValuesCode ++ "\n"
            ++ String.join (R.Prefixes.map (fun Prefix =>
                "ValuesWereAdded = Opt.addValues(" ++ "\"" ++ write_escaped (Prefix ++ R.Name)
                  ++ "\"" ++ ", Values);\n" ++ "(void)ValuesWereAdded;\n"
                  ++ "assert(ValuesWereAdded && \"Couldn't add values to OptTable!\");\n"))
            ++ "\x7d\n" ∧
      (R.Prefixes.map (addValuesText R.Name)).length = R.Prefixes.length ∧
      (R.Prefixes = [] →
        emitValueInit "" R = "\x7b\n" ++ "bool ValuesWereAdded;\n" ++ ValuesCode ++ "\n"
          ++ "\x7d\n")) ∧
    (∀ (R : OptionRec) (MarshallingKind : Option String),
      emitValueInit "" { R with MarshallingKind := MarshallingKind } = emitValueInit "" R) := by
  have hform : ∀ (R : OptionRec) (ValuesCode : String), R.ValuesCode = some ValuesCode →
      emitValueInit "" R
        = "\x7b\n" ++ "bool ValuesWereAdded;\n" ++ ValuesCode ++ "\n"
            ++ String.join (R.Prefixes.map (addValuesText R.Name)) ++ "\x7d\n" := by
    intro R ValuesCode h
    unfold emitValueInit
    simp only [h]
    rw [foldl_append_text _ _ (emitAddValues_eq R.Name)]
    simp [String.append_assoc]
  have htext : ∀ Name : String, addValuesText Name = fun Prefix =>
      "ValuesWereAdded = Opt.addValues(" ++ "\"" ++ write_escaped (Prefix ++ Name)
        ++ "\"" ++ ", Values);\n" ++ "(void)ValuesWereAdded;\n"
        ++ "assert(ValuesWereAdded && \"Couldn't add values to OptTable!\");\n" := by
    intro Name
    funext Prefix
    simp only [addValuesText, quoted, String.append_assoc]
    rfl
  refine ⟨?_, ?_, ?_, ?_⟩
  · unfold emitValueInits
    simp only []
    rw [foldl_append_text emitValueInit (emitValueInit "") emitValueInit_eq,
      loopRange_of_lt _ hlen]
  · intro R h
    simp [emitValueInit, h]
  · intro R ValuesCode h
    refine ⟨?_, by simp, ?_⟩
    · rw [hform R ValuesCode h, htext]
    · intro hp
      rw [hform R ValuesCode h, hp]
      simp [String.join, String.append_assoc]
  · intro R MarshallingKind
    rfl

set_option maxRecDepth 100000 in
/-- C16 at an option with two prefixes and no `MarshallingKind`. -/
theorem value_init_block_witness :
    emitValueInits [scenarioA, valuesCodeOption] ""
      = "" ++ "\n" ++ "#ifdef OPTTABLE_ARG_INIT\n" ++ "//////////\n" ++ "// Option Values\n\n"
          ++ String.join ([scenarioA, valuesCodeOption].map (emitValueInit "")) ++ "\n"
          ++ "#endif // OPTTABLE_ARG_INIT\n" ∧
    String.join ([scenarioA, valuesCodeOption].map (emitValueInit ""))
      = "\x7b\n" ++ "bool ValuesWereAdded;\n" ++ "const char *Values = \"c99,c11\";\n"
          ++ "ValuesWereAdded = Opt.addValues(\"-std=\", Values);\n"
          ++ "(void)ValuesWereAdded;\n"
          ++ "assert(ValuesWereAdded && \"Couldn't add values to OptTable!\");\n"
          ++ "ValuesWereAdded = Opt.addValues(\"--std=\", Values);\n"
          ++ "(void)ValuesWereAdded;\n"
          ++ "assert(ValuesWereAdded && \"Couldn't add values to OptTable!\");\n"
          ++ "\x7d\n" :=
  ⟨(value_init_block [scenarioA, valuesCodeOption] "" (by decide)).1, by decide⟩

/-! ## The prefix block -/

theorem dumpPrefix_eq (OS : String) (I : PrefixKeyT × String) :
    dumpPrefix OS I = OS ++ prefixCallText I := by
  unfold dumpPrefix prefixCallText
  simp only []
  rw [foldl_append_text (fun OS PI => OS ++ "\"" ++ PI ++ "\" COMMA ")
    (fun PI => "\"" ++ PI ++ "\" COMMA ") (by intro OS x; simp [String.append_assoc])]
  simp [String.append_assoc]

theorem dumpPrefixes_eq (P : PrefixesT) (OS : String) :
    dumpPrefixes P OS
      = OS ++ "/////////\n" ++ "// Prefixes\n\n" ++ "#ifdef PREFIX\n" ++ "#define COMMA ,\n"
          ++ String.join (P.map prefixCallText) ++ "#undef COMMA\n" ++ "#endif // PREFIX\n\n" := by
  unfold dumpPrefixes
  simp only []
  rw [foldl_append_text dumpPrefix prefixCallText dumpPrefix_eq]

theorem mapFind_of_mem : ∀ (m : PrefixesT), (m.map Prod.fst).Nodup →
    ∀ e, e ∈ m → mapFind m e.1 = some e.2 := by
  intro m
  induction m with
  | nil => intro _ e he; simp at he
  | cons e0 m ih =>
    obtain ⟨k0, v0⟩ := e0
    intro hnd e he
    simp only [List.map_cons, List.nodup_cons] at hnd
    rcases List.mem_cons.mp he with rfl | hm
    · simp [mapFind]
    · have hne : ¬ k0 = e.1 := by
        intro heq
        apply hnd.1
        rw [heq]
        exact List.mem_map_of_mem _ hm
      simp [mapFind, hne, ih hnd.2 e hm]

/-- C17 (the prefix listing). For every ordered list of fewer than `2 ^ 32`
options, the `PREFIX` block holds, between its heading and closing lines, one
`PREFIX(...)` call per entry of the map; the keys of the entries are, each once,
the empty sequence and the distinct non-empty `Prefixes` of the options, so that
`prefix_0` is listed whether or not an option has empty `Prefixes`; and each call
carries the identifier that the option rows use for its sequence, then the
strings of the sequence between double quotes in their order, each followed by
`COMMA`, then `nullptr`. -/
theorem prefix_listing (Opts : List OptionRec) (OS : String)
    (hlen : Opts.length < 4294967296) :
    dumpPrefixes (internPrefixes Opts).1 OS
      = OS ++ "/////////\n" ++ "// Prefixes\n\n" ++ "#ifdef PREFIX\n" ++ "#define COMMA ,\n"
          ++ String.join ((internPrefixes Opts).1.map (fun I =>
              "PREFIX(" ++ I.2 ++ ", \x7b"
                ++ String.join (I.1.map (fun PI => "\"" ++ PI ++ "\" COMMA "))
                ++ "nullptr\x7d)\n"))
          ++ "#undef COMMA\n" ++ "#endif // PREFIX\n\n" ∧
    ((internPrefixes Opts).1.map Prod.fst).Perm ([] :: distinctNonEmpty Opts) ∧
    ([] :: distinctNonEmpty Opts).Nodup ∧
    (∀ k : PrefixKeyT, k ∈ (internPrefixes Opts).1.map Prod.fst ↔
      (k = [] ∨ ∃ R, R ∈ Opts ∧ R.Prefixes = k)) ∧
    (∀ I, I ∈ (internPrefixes Opts).1 → I.2 = mapIndex (internPrefixes Opts).1 I.1) ∧
    (∀ (R : OptionRec) (OS1 : String), writePrefix (internPrefixes Opts).1 OS1 R
      = OS1 ++ mapIndex (internPrefixes Opts).1 R.Prefixes ++ ", ") := by
  obtain ⟨hnd, _, hperm, _, _⟩ := internInv_internPrefixes Opts hlen
  refine ⟨?_, hperm, hnd, ?_, ?_, ?_⟩
  · rw [dumpPrefixes_eq]
    rfl
  · intro k
    rw [hperm.mem_iff]
    constructor
    · intro hk
      rcases List.mem_cons.mp hk with rfl | hk
      · exact Or.inl rfl
      · simp only [distinctNonEmpty, List.mem_filter, mem_firstSeen, List.mem_map] at hk
        obtain ⟨⟨R, hR, rfl⟩, _⟩ := hk
        exact Or.inr ⟨R, hR, rfl⟩
    · rintro (rfl | ⟨R, hR, rfl⟩)
      · simp [internedKeys]
      · exact prefixes_mem_internedKeys Opts R hR
  · intro I hI
    simp [mapIndex, mapFind_of_mem _ (hperm.nodup_iff.mpr hnd) I hI]
  · intro R OS1
    rfl

set_option maxRecDepth 100000 in
/-- C17 at scenario B of the spec, where no option has empty `Prefixes`. -/
theorem prefix_listing_witness :
    ((internPrefixes [scenarioB1, scenarioB2, scenarioB3]).1.map Prod.fst).Perm
      ([] :: distinctNonEmpty [scenarioB1, scenarioB2, scenarioB3]) ∧
    dumpPrefixes (internPrefixes [scenarioB1, scenarioB2, scenarioB3]).1 ""
      = "/////////\n" ++ "// Prefixes\n\n" ++ "#ifdef PREFIX\n" ++ "#define COMMA ,\n"
          ++ "PREFIX(prefix_0, \x7bnullptr\x7d)\n"
          ++ "PREFIX(prefix_1, \x7b\"-\" COMMA \"--\" COMMA nullptr\x7d)\n"
          ++ "PREFIX(prefix_2, \x7b\"--\" COMMA nullptr\x7d)\n"
          ++ "#undef COMMA\n" ++ "#endif // PREFIX\n\n" :=
  ⟨(prefix_listing [scenarioB1, scenarioB2, scenarioB3] "" (by decide)).2.1, by decide⟩

/-! ## The marshalling queue -/

theorem andThen_prepend (OS : String) (o : Outcome) (f g : String → Outcome)
    (h : ∀ t, f (OS ++ t) = (g t).prepend OS) :
    (o.prepend OS).andThen f = (o.andThen g).prepend OS := by
  cases o with
  | done t => simp [Outcome.prepend, Outcome.andThen, h]
  | aborted t why => simp [Outcome.prepend, Outcome.andThen]

theorem emit_prepend (KindStr : String) (Emit : String → OptionRec → Outcome)
    (h : (kindInfo KindStr).Emit = some Emit) (OS : String) (R : OptionRec) :
    Emit OS R = (Emit "" R).prepend OS := by
  unfold kindInfo at h
  by_cases hf : KindStr = "flag"
  · simp only [hf, if_true, Option.some.injEq] at h
    subst h
    simp [emitMarshallingInfoFlag, Outcome.prepend]
  · by_cases hs : KindStr = "string"
    · have hne : ¬ ("string" = "flag") := by decide
      simp only [hs, hne, if_true, if_false, Option.some.injEq] at h
      subst h
      unfold emitMarshallingInfoString
      cases R.Normalizer with
      | none => simp [Outcome.prepend]
      | some n =>
        cases R.Denormalizer with
        | none => simp [Outcome.prepend, String.append_assoc]
        | some d => simp [Outcome.prepend, String.append_assoc]
    · simp [hf, hs] at h

theorem emitMarshallingRow_prepend (P : PrefixesT) (OS : String) (R : OptionRec) :
    emitMarshallingRow P OS R = (emitMarshallingRow P "" R).prepend OS := by
  cases hk : R.KeyPath with
  | none =>
    rw [prerequisite_missing_aborts P OS R (Or.inl hk),
      prerequisite_missing_aborts P "" R (Or.inl hk)]
    simp [Outcome.prepend]
  | some KeyPath =>
    cases hd : R.DefaultValue with
    | none =>
      rw [prerequisite_missing_aborts P OS R (Or.inr hd),
        prerequisite_missing_aborts P "" R (Or.inr hd)]
      simp [Outcome.prepend]
    | some DefaultValue =>
      cases hm : R.MarshallingKind with
      | none => simp [emitMarshallingRow, hk, hd, hm, Outcome.prepend]
      | some KindStr =>
        cases he : (kindInfo KindStr).Emit with
        | none =>
          simp [emitMarshallingRow, hk, hd, hm, he, Outcome.prepend, WriteOptRecordFields_eq,
            emitScopedNormalizedValue_eq, String.append_assoc]
        | some Emit =>
          rw [emitMarshallingRow_known P OS R KindStr KeyPath DefaultValue Emit hm hk hd he,
            emitMarshallingRow_known P "" R KindStr KeyPath DefaultValue Emit hm hk hd he,
            emit_prepend KindStr Emit he (OS ++ _), 
            emit_prepend KindStr Emit he ("" ++ _)]
          cases Emit "" R with
          | done t => simp [Outcome.prepend, Outcome.andThen, String.append_assoc]
          | aborted t why => simp [Outcome.prepend, Outcome.andThen, String.append_assoc]

theorem emitOptionValueTable_prepend (OS : String) (R : OptionRec) :
    emitOptionValueTable OS R = (emitOptionValueTable "" R).prepend OS := by
  unfold emitOptionValueTable
  cases R.NormalizedValues with
  | none => simp [Outcome.prepend]
  | some nvs =>
    cases R.Values with
    | none => simp [Outcome.prepend]
    | some v =>
      simp only [emitValueTable_eq]
      split <;> simp [Outcome.prepend, String.append_assoc]

theorem emitMarshalledOption_prepend (P : PrefixesT) (OS : String) (R : OptionRec) :
    emitMarshalledOption P OS R = (emitMarshalledOption P "" R).prepend OS := by
  unfold emitMarshalledOption
  rw [emitMarshallingRow_prepend P OS R]
  apply andThen_prepend
  intro t
  rw [emitOptionValueTable_prepend (OS ++ t), emitOptionValueTable_prepend t]
  cases emitOptionValueTable "" R <;> simp [Outcome.prepend, String.append_assoc]

theorem emitMarshalledOption_done (P : PrefixesT) (OS text : String) (R : OptionRec)
    (h : emitMarshalledOption P OS R = .done text) :
    text = OS ++ marshalledText P R ∧ (emitMarshallingRow P "" R).completed = true ∧
      (emitOptionValueTable "" R).completed = true := by
  rw [emitMarshalledOption_prepend] at h
  unfold emitMarshalledOption at h
  unfold marshalledText
  cases hrow : emitMarshallingRow P "" R with
  | aborted t why => rw [hrow] at h; simp [Outcome.andThen, Outcome.prepend] at h
  | done t =>
    rw [hrow] at h
    simp only [Outcome.andThen] at h
    rw [emitOptionValueTable_prepend] at h
    cases htab : emitOptionValueTable "" R with
    | aborted t2 why => rw [htab] at h; simp [Outcome.prepend] at h
    | done t2 =>
      rw [htab] at h
      simp only [Outcome.prepend, Outcome.done.injEq] at h
      simp [Outcome.text, Outcome.completed, ← h, String.append_assoc]

theorem marshallingPasses_done (P : PrefixesT) :
    ∀ (Q : List OptionRec) (OS text : String), marshallingPasses P Q OS = .done text →
      text = OS ++ String.join (Q.map (marshalledText P)) ∧
      ∀ R, R ∈ Q → (emitMarshallingRow P "" R).completed = true ∧
        (emitOptionValueTable "" R).completed = true := by
  intro Q
  induction Q with
  | nil =>
    intro OS text h
    simp only [marshallingPasses, Outcome.done.injEq] at h
    simp [← h, String.join]
  | cons R0 Q ih =>
    intro OS text h
    simp only [marshallingPasses] at h
    cases hhead : emitMarshalledOption P OS R0 with
    | aborted t why => rw [hhead] at h; simp [Outcome.andThen] at h
    | done t =>
      rw [hhead] at h
      simp only [Outcome.andThen] at h
      obtain ⟨ht, hrow, htab⟩ := emitMarshalledOption_done P OS t R0 hhead
      obtain ⟨htext, hall⟩ := ih t text h
      refine ⟨?_, ?_⟩
      · rw [htext, ht, List.map_cons, string_join_cons]
        simp [String.append_assoc]
      · intro R hR
        rcases List.mem_cons.mp hR with rfl | hR
        · exact ⟨hrow, htab⟩
        · exact hall R hR

theorem emitMarshallingRow_completed_form (P : PrefixesT) (R : OptionRec)
    (h : (emitMarshallingRow P "" R).completed = true) :
    ∃ KindStr KeyPath DefaultValue payload,
      R.MarshallingKind = some KindStr ∧ (KindStr = "flag" ∨ KindStr = "string") ∧
      R.KeyPath = some KeyPath ∧ R.DefaultValue = some DefaultValue ∧
      (emitMarshallingRow P "" R).text
        = marshallingRowStart (kindInfo KindStr).MacroName P R KeyPath DefaultValue
            ++ payload ++ ")\n" ++ "#endif\n" := by
  cases hk : R.KeyPath with
  | none =>
    rw [prerequisite_missing_aborts P "" R (Or.inl hk)] at h
    simp [Outcome.completed] at h
  | some KeyPath =>
    cases hd : R.DefaultValue with
    | none =>
      rw [prerequisite_missing_aborts P "" R (Or.inr hd)] at h
      simp [Outcome.completed] at h
    | some DefaultValue =>
      cases hm : R.MarshallingKind with
      | none => simp [emitMarshallingRow, hk, hd, hm, Outcome.completed] at h
      | some KindStr =>
        cases he : (kindInfo KindStr).Emit with
        | none => simp [emitMarshallingRow, hk, hd, hm, he, Outcome.completed] at h
        | some Emit =>
          have hknown : KindStr = "flag" ∨ KindStr = "string" := by
            by_cases hf : KindStr = "flag"
            · exact Or.inl hf
            · by_cases hs : KindStr = "string"
              · exact Or.inr hs
              · simp [kindInfo, hf, hs] at he
          rw [emitMarshallingRow_known P "" R KindStr KeyPath DefaultValue Emit hm hk hd he,
            emit_prepend KindStr Emit he ("" ++ _)] at h ⊢
          cases hpay : Emit "" R with
          | aborted t why =>
            rw [hpay] at h
            simp [Outcome.prepend, Outcome.andThen, Outcome.completed] at h
          | done t =>
            refine ⟨KindStr, KeyPath, DefaultValue, t, rfl, hknown, rfl, rfl, ?_⟩
            simp [Outcome.prepend, Outcome.andThen, Outcome.text, String.append_assoc]

/-- C18 (the marshalling queue). For every ordered list of fewer than `2 ^ 32`
options on which `EmitOptParser` returns, the text written is: the prefix and
group blocks, the option rows with the line that closes the `OPTION` block, then
one piece per option whose `MarshallingKind` is set, in the order of the option
list (the pieces of the filter of the list), then the value-init block. Each
piece is the marshalling row of its option, under the macro of its kind and with
the option's twelve fields, followed by the option's value table when it has one;
an option whose `MarshallingKind` is unset has no piece. -/
theorem marshalling_queue (Groups : List OptionGroup) (Opts : List OptionRec)
    (OS text : String) (hlen : Opts.length < 4294967296)
    (hdone : EmitOptParser Groups Opts OS = .done text) :
    text
      = emitGroups Groups (dumpPrefixes (internPrefixes Opts).1 OS)
          ++ "//////////\n" ++ "// Options\n\n"
          ++ String.join (Opts.map (optionRowText (internPrefixes Opts).1))
          ++ "#endif // OPTION\n"
          ++ String.join ((Opts.filter (fun R => R.MarshallingKind.isSome)).map
              (marshalledText (internPrefixes Opts).1))
          ++ "\n" ++ "#ifdef OPTTABLE_ARG_INIT\n" ++ "//////////\n" ++ "// Option Values\n\n"
          ++ String.join (Opts.map (emitValueInit "")) ++ "\n"
          ++ "#endif // OPTTABLE_ARG_INIT\n" ∧
    ∀ R, R ∈ Opts.filter (fun R => R.MarshallingKind.isSome) →
      (emitMarshallingRow (internPrefixes Opts).1 "" R).completed = true ∧
      (emitOptionValueTable "" R).completed = true ∧
      marshalledText (internPrefixes Opts).1 R
        = (emitMarshallingRow (internPrefixes Opts).1 "" R).text
            ++ (emitOptionValueTable "" R).text ∧
      ∃ KindStr KeyPath DefaultValue payload,
        R.MarshallingKind = some KindStr ∧ (KindStr = "flag" ∨ KindStr = "string") ∧
        R.KeyPath = some KeyPath ∧ R.DefaultValue = some DefaultValue ∧
        (emitMarshallingRow (internPrefixes Opts).1 "" R).text
          = marshallingRowStart (kindInfo KindStr).MacroName (internPrefixes Opts).1 R KeyPath
              DefaultValue ++ payload ++ ")\n" ++ "#endif\n" := by
  have hq : loopRange (OptsWithMarshalling Opts)
      = Opts.filter (fun R => R.MarshallingKind.isSome) := by
    have h1 : OptsWithMarshalling Opts = Opts.filter (fun R => R.MarshallingKind.isSome) := by
      simp [OptsWithMarshalling, loopRange_of_lt _ hlen]
    rw [h1]
    exact loopRange_of_lt _ (lt_of_le_of_lt (List.length_filter_le _ _) hlen)
  unfold EmitOptParser emitMarshalling at hdone
  simp only [] at hdone
  cases hm : marshallingPasses (internPrefixes Opts).1 (loopRange (OptsWithMarshalling Opts))
      (emitOptions (internPrefixes Opts).1 Opts
        (emitGroups Groups (dumpPrefixes (internPrefixes Opts).1 OS))) with
  | aborted t why => rw [hm] at hdone; simp [Outcome.andThen] at hdone
  | done t =>
    rw [hm] at hdone
    simp only [Outcome.andThen, Outcome.done.injEq] at hdone
    obtain ⟨ht, hall⟩ := marshallingPasses_done _ _ _ _ hm
    rw [hq] at ht hall
    constructor
    · rw [← hdone, ht, emitOptions_eq, loopRange_of_lt _ hlen]
      unfold emitValueInits
      simp only []
      rw [foldl_append_text emitValueInit (emitValueInit "") emitValueInit_eq,
        loopRange_of_lt _ hlen]
    · intro R hR
      obtain ⟨hrow, htab⟩ := hall R hR
      exact ⟨hrow, htab, rfl, emitMarshallingRow_completed_form _ R hrow⟩

theorem eq_done_of_completed (o : Outcome) (h : o.completed = true) : o = .done o.text := by
  cases o with
  | done t => rfl
  | aborted t why => simp [Outcome.completed] at h

set_option maxRecDepth 100000 in
/-- C18 at a list of three options of which the last two are queued. -/
theorem marshalling_queue_witness :
    [scenarioB1, scenarioC, positiveFlagOption].filter (fun R => R.MarshallingKind.isSome)
      = [scenarioC, positiveFlagOption] ∧
    (EmitOptParser [] [scenarioB1, scenarioC, positiveFlagOption] "").completed = true ∧
    (EmitOptParser [] [scenarioB1, scenarioC, positiveFlagOption] "").text
      = emitGroups [] (dumpPrefixes
            (internPrefixes [scenarioB1, scenarioC, positiveFlagOption]).1 "")
          ++ "//////////\n" ++ "// Options\n\n"
          ++ String.join ([scenarioB1, scenarioC, positiveFlagOption].map
              (optionRowText (internPrefixes [scenarioB1, scenarioC, positiveFlagOption]).1))
          ++ "#endif // OPTION\n"
          ++ String.join (([scenarioB1, scenarioC, positiveFlagOption].filter
              (fun R => R.MarshallingKind.isSome)).map
              (marshalledText (internPrefixes [scenarioB1, scenarioC, positiveFlagOption]).1))
          ++ "\n" ++ "#ifdef OPTTABLE_ARG_INIT\n" ++ "//////////\n" ++ "// Option Values\n\n"
          ++ String.join ([scenarioB1, scenarioC, positiveFlagOption].map (emitValueInit ""))
          ++ "\n" ++ "#endif // OPTTABLE_ARG_INIT\n" :=
  ⟨rfl, by decide,
    (marshalling_queue [] [scenarioB1, scenarioC, positiveFlagOption] ""
      (EmitOptParser [] [scenarioB1, scenarioC, positiveFlagOption] "").text (by decide)
      (eq_done_of_completed _ (by decide))).1⟩

/-! ## Flags of ancestor groups -/

/-- C19 (flag inheritance is one level deep). For every option in a group, the
flags field is the own flag names followed by those of the group, and the option
row and the marshalling row are the same text whatever the parent of that group
is: two inputs that differ only in the group's parent, in its `Flags` or in those
of a further ancestor, give the same rows. -/
theorem flags_one_level (P : PrefixesT) (OS : String) (R : OptionRec)
    (recName Name : String) (EnumName HelpText : Option String) (Flags : List FlagDef)
    (Parent1 Parent2 : Option OptionGroup) :
    writeFlags OS { R with Group := some (.mk recName Name EnumName Parent1 HelpText Flags) }
      = OS ++ flagsText (R.Flags.map FlagDef.recName ++ Flags.map FlagDef.recName) ∧
    emitOptionRow P OS
        { R with Group := some (.mk recName Name EnumName Parent1 HelpText Flags) }
      = emitOptionRow P OS
        { R with Group := some (.mk recName Name EnumName Parent2 HelpText Flags) } ∧
    emitMarshallingRow P OS
        { R with Group := some (.mk recName Name EnumName Parent1 HelpText Flags) }
      = emitMarshallingRow P OS
        { R with Group := some (.mk recName Name EnumName Parent2 HelpText Flags) } := by
  have hfields : optionFields P
        { R with Group := some (.mk recName Name EnumName Parent1 HelpText Flags) }
      = optionFields P
        { R with Group := some (.mk recName Name EnumName Parent2 HelpText Flags) } := by
    simp [optionFields, flagNames, OptionGroup.head, OptionGroup.recName, OptionGroup.EnumName,
      OptionGroup.Flags, OptionRec.head]
  refine ⟨?_, ?_, ?_⟩
  · rw [writeFlags_eq]
    simp [flagNames, OptionGroup.Flags]
  · rw [emitOptionRow_eq, emitOptionRow_eq, hfields]
  · unfold emitMarshallingRow
    simp only [WriteOptRecordFields_eq, hfields, scopeOf]
    cases R.KeyPath <;> cases R.DefaultValue <;> try rfl
    cases R.MarshallingKind with
    | none => rfl
    | some KindStr =>
      simp only []
      by_cases hf : KindStr = "flag"
      · simp [kindInfo, hf, emitMarshallingInfoFlag]
      · by_cases hs : KindStr = "string"
        · simp [kindInfo, hs, emitMarshallingInfoString]
        · simp [kindInfo, hf, hs]

set_option maxRecDepth 100000 in
/-- C19 at an option whose group has the flag `CC1Option` and whose group's
parent has the flag `NoDriverOption`: the field is `CC1Option` alone. -/
theorem flags_one_level_example :
    writeFlags "" { scenarioA with
        Group := some (.mk "f_Group" "<f group>" none
          (some (.mk "top_Group" "<top group>" none none none [⟨"NoDriverOption"⟩]))
          none [flagCC1]) }
      = "CC1Option" := by
  decide

/-! ## The comma split -/

theorem splitChars_length (sep : Char) : ∀ (cs cur : List Char),
    (splitChars sep cs cur).length = cs.count sep + 1 := by
  intro cs
  induction cs with
  | nil => intro cur; simp [splitChars]
  | cons c cs ih =>
    intro cur
    by_cases h : c = sep
    · subst h
      simp [splitChars, ih]
    · have h2 : ¬ (c == sep) = true := by simpa using h
      simp [splitChars, h, ih, List.count_cons, h2]

/-- C20 (token count of the comma split). For every `Values` string the number of
tokens that `emitValueTable` compares with the number of normalized values is the
number of commas in the string plus one, empty tokens being kept: the empty string
is one empty token, so that the empty string with no normalized value ends the
run at the assertion, and a leading, a trailing or a doubled comma each add an
empty token. -/
theorem split_token_count (Values : String) (OS OptionID Scope : String) :
    (split Values ',').length = Values.data.count ',' + 1 ∧
    split "" ',' = [""] ∧
    emitValueTable OS OptionID "" Scope [] = .aborted OS (.assertFailed cardinalityMessage) ∧
    split ",a" ',' = ["", "a"] ∧ split "a," ',' = ["a", ""] ∧
    split "a,,b" ',' = ["a", "", "b"] ∧
    (emitValueTable OS OptionID "a," Scope ["X"]).completed = false ∧
    (emitValueTable OS OptionID "a," Scope ["X", "Y"]).completed = true := by
  refine ⟨splitChars_length _ _ _, by decide, ?_, by decide, by decide, by decide, ?_, ?_⟩
  · rw [emitValueTable_eq, if_pos (by decide)]
  · rw [emitValueTable_eq, if_pos (by decide)]
    rfl
  · rw [emitValueTable_eq, if_neg (by decide)]
    rfl

/-! ## The checks of the marshalling loop -/

theorem completed_prepend (OS : String) (o : Outcome) :
    (o.prepend OS).completed = o.completed := by
  cases o <;> rfl

theorem marshallingPasses_completed_iff (P : PrefixesT) :
    ∀ (Q : List OptionRec) (OS : String),
      (marshallingPasses P Q OS).completed = true ↔
        ∀ R, R ∈ Q → (emitMarshalledOption P "" R).completed = true := by
  intro Q
  induction Q with
  | nil => intro OS; simp [marshallingPasses, Outcome.completed]
  | cons R0 Q ih =>
    intro OS
    simp only [marshallingPasses, List.mem_cons, forall_eq_or_imp]
    rw [emitMarshalledOption_prepend]
    cases h0 : emitMarshalledOption P "" R0 with
    | done t =>
      simp only [Outcome.prepend, Outcome.andThen, Outcome.completed, true_and]
      exact ih (OS ++ t)
    | aborted t why =>
      simp [Outcome.prepend, Outcome.andThen, Outcome.completed]

theorem emitOptionValueTable_completed_iff (OS : String) (R : OptionRec) :
    (emitOptionValueTable OS R).completed = true ↔
      (R.NormalizedValues = none ∨ ∃ nvs v, R.NormalizedValues = some nvs ∧
        R.Values = some v ∧ (split v ',').length = nvs.length) := by
  unfold emitOptionValueTable
  cases hn : R.NormalizedValues with
  | none => simp [Outcome.completed]
  | some nvs =>
    cases hv : R.Values with
    | none => simp [Outcome.completed]
    | some v =>
      simp only [emitValueTable_eq]
      by_cases hc : (split v ',').length = nvs.length
      · simp [hc, Outcome.completed]
      · simp [hc, Outcome.completed]

theorem emitMarshalledOption_completed_iff (P : PrefixesT) (R : OptionRec) :
    (emitMarshalledOption P "" R).completed = true ↔
      ((emitMarshallingRow P "" R).completed = true ∧
        (R.NormalizedValues = none ∨ ∃ nvs v, R.NormalizedValues = some nvs ∧
          R.Values = some v ∧ (split v ',').length = nvs.length)) := by
  unfold emitMarshalledOption
  cases hrow : emitMarshallingRow P "" R with
  | aborted t why => simp [Outcome.andThen, Outcome.completed]
  | done t =>
    simp only [Outcome.andThen, Outcome.completed, true_and]
    exact emitOptionValueTable_completed_iff t R

/-- C10, amended (the `NormalizedValues` invariant is enforced for exactly the
options whose `MarshallingKind` is set). For every input of fewer than `2 ^ 32`
options: when some option with `MarshallingKind` set has `NormalizedValues`
present and either has `Values` unset or a comma-split token count of `Values`
different from the length of `NormalizedValues`, `EmitOptParser` does not return;
an option whose `MarshallingKind` is unset is not checked: `EmitOptParser` returns
if and only if every option with `MarshallingKind` set has its marshalling row
written and has `NormalizedValues` unset or `Values` set with as many tokens as
there are normalized values, whatever the options without `MarshallingKind` hold;
in particular it returns when no option has `MarshallingKind` set. -/
theorem normalized_values_checked_when_queued (Groups : List OptionGroup)
    (Opts : List OptionRec) (OS : String) (hlen : Opts.length < 4294967296) :
    ((∃ R nvs, R ∈ Opts ∧ R.MarshallingKind.isSome = true ∧ R.NormalizedValues = some nvs ∧
        (R.Values = none ∨ ∃ v, R.Values = some v ∧ (split v ',').length ≠ nvs.length)) →
      (EmitOptParser Groups Opts OS).completed = false) ∧
    ((EmitOptParser Groups Opts OS).completed = true ↔
      ∀ R, R ∈ Opts → R.MarshallingKind.isSome = true →
        ((emitMarshallingRow (internPrefixes Opts).1 "" R).completed = true ∧
          (R.NormalizedValues = none ∨ ∃ nvs v, R.NormalizedValues = some nvs ∧
            R.Values = some v ∧ (split v ',').length = nvs.length))) ∧
    ((∀ R, R ∈ Opts → R.MarshallingKind = none) →
      (EmitOptParser Groups Opts OS).completed = true) := by
  have hiff : (EmitOptParser Groups Opts OS).completed = true ↔
      ∀ R, R ∈ Opts → R.MarshallingKind.isSome = true →
        ((emitMarshallingRow (internPrefixes Opts).1 "" R).completed = true ∧
          (R.NormalizedValues = none ∨ ∃ nvs v, R.NormalizedValues = some nvs ∧
            R.Values = some v ∧ (split v ',').length = nvs.length)) := by
    rw [EmitOptParser_completed, marshallingPasses_completed_iff]
    constructor
    · intro h R hR hkind
      exact (emitMarshalledOption_completed_iff _ R).mp
        (h R (mem_queue Opts hlen R hR hkind))
    · intro h R hR
      obtain ⟨hmem, hkind⟩ := of_mem_queue Opts R hR
      exact (emitMarshalledOption_completed_iff _ R).mpr (h R hmem hkind)
  refine ⟨?_, hiff, ?_⟩
  · rintro ⟨R, nvs, hR, hkind, hnv, hval⟩
    cases hc : (EmitOptParser Groups Opts OS).completed with
    | false => rfl
    | true =>
      exfalso
      obtain ⟨_, hinv⟩ := hiff.mp hc R hR hkind
      rcases hinv with hnone | ⟨nvs2, v, hnv2, hv, hlen2⟩
      · rw [hnv] at hnone
        exact absurd hnone (by simp)
      · rw [hnv] at hnv2
        have hnn : nvs = nvs2 := by simpa using hnv2
        subst hnn
        rcases hval with hvn | ⟨v2, hv2, hne⟩
        · rw [hv] at hvn
          exact absurd hvn (by simp)
        · rw [hv] at hv2
          have hvv : v = v2 := by simpa using hv2
          subst hvv
          exact hne hlen2
  · intro hall
    apply hiff.mpr
    intro R hR hkind
    rw [hall R hR] at hkind
    exact absurd hkind (by simp)

set_option maxRecDepth 100000 in
/-- C10, amended, at three inputs: a `flag` kind option with `NormalizedValues` and
no `Values` ends the run; the same record without `MarshallingKind`, listed after a
`flag` kind option, does not. -/
theorem normalized_values_checked_when_queued_witness :
    (EmitOptParser [] [queuedValuelessOption] "").completed = false ∧
    (EmitOptParser [] [positiveFlagOption, queuedValuelessOption] "").completed = false ∧
    (EmitOptParser [] [positiveFlagOption, unqueuedValuelessOption] "").completed = true :=
  ⟨(normalized_values_checked_when_queued [] [queuedValuelessOption] "" (by decide)).1
      ⟨queuedValuelessOption, ["X"], by simp, rfl, rfl, Or.inl rfl⟩,
    (normalized_values_checked_when_queued [] [positiveFlagOption, queuedValuelessOption] ""
      (by decide)).1 ⟨queuedValuelessOption, ["X"], by simp, rfl, rfl, Or.inl rfl⟩,
    (normalized_values_checked_when_queued [] [positiveFlagOption, unqueuedValuelessOption] ""
      (by decide)).2.1.mpr (fun R hR hkind => by
        rcases List.mem_cons.mp hR with rfl | hR
        · exact ⟨by decide, Or.inl rfl⟩
        · rcases List.mem_cons.mp hR with rfl | hR
          · exact absurd hkind (by decide)
          · simp at hR)⟩

end OptParserEmitter
